import Mathlib

/-!
Verification of the rename widget's process handling (`src/src/widget.cpp`).

Shallow embedding of `Widget` (Qt, C++): the text operations of `QString`
used by the slots, the user-interface state the slots write to, the `QProcess`
objects the widget creates, and the slots themselves.

Conventions.
* A `QString` is the list of its characters.  Every index computed by the code
  (`QString("PROGRESS ").size() + parts[1].size()`) counts characters of the
  Basic Multilingual Plane only whenever it is used (`parts[1]` has passed
  `toInt`), so characters and UTF-16 code units coincide there.
* The value of `QString::fromUtf8(m_proc->readAllStandardOutput())` is the text
  stored in the `stdoutData` field of the process object held in `m_proc`.
* `int` values are `Int`; `QString::toInt` enforces the 32-bit range itself.
* The Qt library is not part of the repository.  Its operations are modelled
  from their documented behaviour, each by the definition named after it.
* A slot is a function on the widget state.  Signals reach the slots through
  `deliver`, which follows the `connect` calls of `onRenameClicked`: every
  process object created there stays connected, and no slot receives or
  inspects the sender.
* `waitForStarted` is an outcome supplied by the environment; a process object
  for which it fails counts as not started.
-/

namespace Yamaguchi

/-! ## QString operations used by the widget -/

/-- Text of a `QString`, one element per character. -/
abbrev QString := List Char

/-- Literal text, as written in the source between quotes. -/
def lit (s : String) : QString := s.toList

/-- Qt `QChar::isSpace`: space, the controls U+0009..U+000D, U+0085, U+00A0 and
the Unicode separators (categories Zs, Zl, Zp). -/
def isSpace (c : Char) : Bool :=
  c.toNat == 0x20 || (0x09 ≤ c.toNat && c.toNat ≤ 0x0D) || c.toNat == 0x85 ||
  c.toNat == 0xA0 || c.toNat == 0x1680 || (0x2000 ≤ c.toNat && c.toNat ≤ 0x200A) ||
  c.toNat == 0x2028 || c.toNat == 0x2029 || c.toNat == 0x202F || c.toNat == 0x205F ||
  c.toNat == 0x3000

/-- Qt `QString::trimmed`: whitespace removed from the start and the end. -/
def trimmed (s : QString) : QString :=
  ((s.dropWhile isSpace).reverse.dropWhile isSpace).reverse

/-- Qt `QString::startsWith`. -/
def startsWith (s p : QString) : Bool := p.isPrefixOf s

/-- Qt `QString::mid(position)`: the text from `position` to the end. -/
def mid (s : QString) (position : Nat) : QString := s.drop position

/-- Split behaviours of `QString::split`. -/
inductive SplitBehavior where
  | KeepEmptyParts
  | SkipEmptyParts
  deriving DecidableEq, Repr

/-- All fragments of `s` between occurrences of `sep`, empty ones included
(`QString::split(sep)` with `Qt::KeepEmptyParts`): always at least one. -/
def splitKeep (sep : Char) : QString → List QString
  | [] => [[]]
  | c :: cs =>
    if c = sep then [] :: splitKeep sep cs
    else
      match splitKeep sep cs with
      | [] => [[c]]
      | p :: ps => (c :: p) :: ps

/-- Qt `QString::split(sep, behavior)`. -/
def split (sep : Char) (behavior : SplitBehavior) (s : QString) : List QString :=
  match behavior with
  | .KeepEmptyParts => splitKeep sep s
  | .SkipEmptyParts => (splitKeep sep s).filter (fun part => !part.isEmpty)

/-- ASCII decimal digit. -/
def isDigit (c : Char) : Bool := 48 ≤ c.toNat && c.toNat ≤ 57

/-- Value of a run of decimal digits, most significant first. -/
def digitsValue (ds : QString) : Nat :=
  ds.foldl (fun acc c => 10 * acc + (c.toNat - 48)) 0

/-- Sign and unsigned part of a number text. -/
def splitSign (t : QString) : Bool × QString :=
  match t with
  | [] => (false, [])
  | c :: r => if c = '-' then (true, r) else if c = '+' then (false, r) else (false, c :: r)

/-- Qt `QString::toInt(&ok)` in base 10: leading and trailing whitespace is
ignored, then an optional sign and at least one decimal digit must make up the
whole text, and the value must fit a 32-bit `int`.  `none` is `ok == false`. -/
def toInt (s : QString) : Option Int :=
  let sd := splitSign (trimmed s)
  if sd.2 ≠ [] ∧ sd.2.all isDigit = true then
    let v : Int := if sd.1 then -((digitsValue sd.2 : Nat) : Int) else ((digitsValue sd.2 : Nat) : Int)
    if -2147483648 ≤ v ∧ v ≤ 2147483647 then some v else none
  else none

/-- Qt `QString::number(n)`, the text `arg(int)` substitutes: decimal digits,
with a leading minus for a negative value. -/
def number (n : Int) : QString :=
  match n with
  | Int.ofNat m => Nat.toDigits 10 m
  | Int.negSucc m => '-' :: Nat.toDigits 10 (m + 1)

/-- Qt `qBound(min, val, max)`. -/
def qBound (lo v hi : Int) : Int := max lo (min hi v)

/-! ## User-interface state -/

/-- One call of a presentation routine of the widget, in the order made. -/
inductive Call where
  | setProgress (percent : Int) (msg : QString)
  | logOk (s : QString)
  | logErr (s : QString)
  | warning (text : QString)
  deriving DecidableEq, Repr

/-- The widgets the slots write to.  `textBrowser` is the error pane and
`textBrowser_2` the information pane, one entry per `append`; `calls` records
every presentation call in order. -/
structure Ui where
  progressBar : Int
  label_5 : QString
  textBrowser : List QString
  textBrowser_2 : List QString
  calls : List Call
  deriving DecidableEq, Repr

/-- `Widget::setProgress(int percent, const QString &msg)`. -/
def setProgress (ui : Ui) (percent : Int) (msg : QString) : Ui :=
  { ui with
    progressBar := qBound 0 percent 100
    label_5 :=
      if !msg.isEmpty then lit "進捗: " ++ number percent ++ lit "%  " ++ msg
      else lit "進捗: " ++ number percent ++ lit "%"
    calls := ui.calls ++ [Call.setProgress percent msg] }

/-- `Widget::logOk`. -/
def logOk (ui : Ui) (s : QString) : Ui :=
  { ui with
    textBrowser_2 := ui.textBrowser_2 ++ [lit "✅ " ++ s]
    calls := ui.calls ++ [Call.logOk s] }

/-- `Widget::logErr`. -/
def logErr (ui : Ui) (s : QString) : Ui :=
  { ui with
    textBrowser := ui.textBrowser ++ [lit "❌ " ++ s]
    calls := ui.calls ++ [Call.logErr s] }

/-- `Widget::setIdle`. -/
def setIdle (ui : Ui) : Ui :=
  { ui with progressBar := 0, label_5 := lit "進捗" }

/-- `Widget::initUiDefaults`, on the widgets modelled here. -/
def initUiDefaults (ui : Ui) : Ui :=
  { setIdle ui with textBrowser := [], textBrowser_2 := [] }

/-- The user interface after the constructor: `setupUi`, then `initUiDefaults`. -/
def initUi : Ui :=
  initUiDefaults
    { progressBar := 0, label_5 := [], textBrowser := [], textBrowser_2 := [], calls := [] }

/-! ## The stdout and stderr loops -/

/-- The progress branch of the loop body of `onProcReadyStdout` (the `if`
nest before `logOk(line)`): the arguments of the `setProgress` call when the
`continue` is reached, `none` when control falls through to `logOk(line)`. -/
def parseProgress (line : QString) : Option (Int × QString) :=
  if startsWith line (lit "PROGRESS ") then
    let parts := split ' ' SplitBehavior.KeepEmptyParts line
    if 2 ≤ parts.length then
      match toInt (parts.getD 1 []) with
      | some p =>
        some (p, trimmed (mid line ((lit "PROGRESS ").length + (parts.getD 1 []).length)))
      | none => none
    else none
  else none

/-- One iteration of the loop of `onProcReadyStdout`. -/
def stdoutLine (ui : Ui) (line : QString) : Ui :=
  match parseProgress line with
  | some (p, msg) => setProgress ui p msg
  | none => logOk ui line

/-- The presentation call one iteration of the loop of `onProcReadyStdout`
makes for `line`. -/
def lineCall (line : QString) : Call :=
  match parseProgress line with
  | some (p, msg) => Call.setProgress p msg
  | none => Call.logOk line

/-- The loop of `onProcReadyStdout` over the text `out` read from the process. -/
def stdoutText (ui : Ui) (out : QString) : Ui :=
  (split '\n' SplitBehavior.SkipEmptyParts out).foldl stdoutLine ui

/-- The loop of `onProcReadyStderr` over the text `err` read from the process. -/
def stderrText (ui : Ui) (err : QString) : Ui :=
  (split '\n' SplitBehavior.SkipEmptyParts err).foldl logErr ui

/-! ## Process objects and the widget -/

/-- `QProcess::ExitStatus`. -/
inductive ExitStatus where
  | NormalExit
  | CrashExit
  deriving DecidableEq, Repr

/-- A `QProcess` object created by the widget.  `connected` says that its
`readyReadStandardOutput`, `readyReadStandardError` and `finished` signals are
connected to the widget's slots; `running` that `start` succeeded; `killed`
and `deleteLater` that the call of that name was made on it; `stdoutData` and
`stderrData` hold what the child has written and the widget has not read. -/
structure QProcess where
  program : QString
  arguments : List QString
  separateChannels : Bool
  connected : Bool
  running : Bool
  killed : Bool
  deleteLater : Bool
  stdoutData : QString
  stderrData : QString
  deriving DecidableEq, Repr

/-- The fields of `Widget`.  `m_proc` is a pointer into `heap`, the process
objects created so far (`none` is `nullptr`). -/
structure Widget where
  ui : Ui
  m_folder : QString
  m_excel : QString
  m_proc : Option Nat
  heap : List QProcess
  deriving DecidableEq, Repr

/-- What one call of `onRenameClicked` finds outside the widget: the search
path (`QStandardPaths::findExecutable`), the file system (`QFileInfo::exists`),
the application directory, the selected filter text and whether the new child
process comes up (`waitForStarted`). -/
structure Env where
  findExecutable : QString → QString
  fileExists : QString → Bool
  applicationDirPath : QString
  currentText : QString
  waitForStarted : Bool

/-- The widget after its constructor. -/
def Widget.init : Widget :=
  { ui := initUi, m_folder := [], m_excel := [], m_proc := none, heap := [] }

/-- Apply `f` to the process object at `pid`. -/
def modifyProc (heap : List QProcess) (pid : Nat) (f : QProcess → QProcess) : List QProcess :=
  match heap[pid]? with
  | some pr => heap.set pid (f pr)
  | none => heap

/-- The `if (m_proc)` block shared by `~Widget` and `onRenameClicked`: `kill`
and `deleteLater` are called on the process in `m_proc`, if any. -/
def killCurrent (w : Widget) : List QProcess :=
  match w.m_proc with
  | some pid => modifyProc w.heap pid (fun pr => { pr with killed := true, deleteLater := true })
  | none => w.heap

/-- `Widget::~Widget`. -/
def destructor (w : Widget) : Widget :=
  { w with heap := killCurrent w }

/-- `Widget::onChooseFolder`, `dir` being what the folder dialog returned. -/
def onChooseFolder (w : Widget) (dir : QString) : Widget :=
  if !dir.isEmpty then
    { w with m_folder := dir, ui := logOk w.ui (lit "フォルダを選択: " ++ dir) }
  else w

/-- `Widget::onChooseExcel`, `file` being what the file dialog returned. -/
def onChooseExcel (w : Widget) (file : QString) : Widget :=
  if !file.isEmpty then
    { w with m_excel := file, ui := logOk w.ui (lit "Excel を選択: " ++ file) }
  else w

/-- `Widget::pythonExecutable`. -/
def pythonExecutable (env : Env) : QString :=
  let py := env.findExecutable (lit "python3")
  if py.isEmpty then env.findExecutable (lit "python") else py

/-- Qt `QDir::filePath` for a relative file name. -/
def filePath (dir fileName : QString) : QString :=
  if dir.getLast? = some '/' then dir ++ fileName else dir ++ '/' :: fileName

/-- `Widget::pythonScriptPath`. -/
def pythonScriptPath (env : Env) : QString :=
  filePath env.applicationDirPath (lit "scripts/rename_by_excel.py")

/-- `QMessageBox::warning` with the given text. -/
def warning (ui : Ui) (text : QString) : Ui :=
  { ui with calls := ui.calls ++ [Call.warning text] }

/-- Qt `QStringList::join(sep)`. -/
def joinWith (sep : Char) : List QString → QString
  | [] => []
  | [a] => a
  | a :: b :: rest => a ++ sep :: joinWith sep (b :: rest)

/-- Message of the folder check of `onRenameClicked`. -/
def msgNoFolder : QString := lit "フォルダが未選択です。"

/-- Message of the spreadsheet check of `onRenameClicked`. -/
def msgNoExcel : QString := lit "Excel ファイルが未選択です。"

/-- Message of the interpreter check of `onRenameClicked`. -/
def msgNoPython : QString := lit "Python 実行ファイルが見つかりません（python3 / python）。"

/-- Text of the warning box of the interpreter check of `onRenameClicked`. -/
def boxNoPython : QString :=
  lit "Python が見つかりませんでした。ターミナルから python3 が実行できるか確認してください。"

/-- The argument list built by `onRenameClicked`. -/
def workerArgs (env : Env) (w : Widget) : List QString :=
  [pythonScriptPath env, lit "--folder", w.m_folder, lit "--excel", w.m_excel,
   lit "--filter", env.currentText]

/-- The process object `onRenameClicked` creates, connects and starts;
`running` is the outcome of `waitForStarted`. -/
def newProcess (env : Env) (w : Widget) : QProcess :=
  { program := pythonExecutable env, arguments := workerArgs env w, separateChannels := true,
    connected := true, running := env.waitForStarted, killed := false, deleteLater := false,
    stdoutData := [], stderrData := [] }

/-- `Widget::onRenameClicked`. -/
def onRenameClicked (env : Env) (w : Widget) : Widget :=
  if w.m_folder.isEmpty then
    { w with ui := logErr w.ui msgNoFolder }
  else if w.m_excel.isEmpty then
    { w with ui := logErr w.ui msgNoExcel }
  else
    let py := pythonExecutable env
    if py.isEmpty then
      { w with ui := warning (logErr w.ui msgNoPython) boxNoPython }
    else
      let script := pythonScriptPath env
      if !env.fileExists script then
        { w with ui := (warning (logErr w.ui (lit "Python スクリプトが見つかりません: " ++ script))
            (lit "Python スクリプトが見つかりませんでした:\n" ++ script)) }
      else
        let heap1 := killCurrent w
        let ui1 :=
          setProgress
            (logOk w.ui (lit "処理開始: " ++ py ++ ' ' :: joinWith ' ' (workerArgs env w))) 0
            (lit "処理開始")
        if env.waitForStarted then
          { w with ui := ui1, m_proc := some heap1.length, heap := heap1 ++ [newProcess env w] }
        else
          { w with ui := logErr ui1 (lit "Python プロセスを起動できませんでした。"),
                   m_proc := none,
                   heap := heap1 ++ [{ newProcess env w with deleteLater := true }] }

/-- `Widget::onProcReadyStdout`: reads all pending standard output of the
process in `m_proc` and runs the loop over it.  `none` is the dereference of a
null `m_proc`. -/
def onProcReadyStdout (w : Widget) : Option Widget :=
  match w.m_proc with
  | none => none
  | some pid =>
    match w.heap[pid]? with
    | none => none
    | some pr =>
      some { w with ui := stdoutText w.ui pr.stdoutData,
                    heap := w.heap.set pid { pr with stdoutData := [] } }

/-- `Widget::onProcReadyStderr`. -/
def onProcReadyStderr (w : Widget) : Option Widget :=
  match w.m_proc with
  | none => none
  | some pid =>
    match w.heap[pid]? with
    | none => none
    | some pr =>
      some { w with ui := stderrText w.ui pr.stderrData,
                    heap := w.heap.set pid { pr with stderrData := [] } }

/-- `Widget::onProcFinished`. -/
def onProcFinished (w : Widget) (exitCode : Int) (st : ExitStatus) : Widget :=
  if st = ExitStatus.NormalExit ∧ exitCode = 0 then
    { w with ui := logOk (setProgress w.ui 100 (lit "完了")) (lit "処理が正常終了しました。") }
  else
    { w with ui := logErr w.ui (lit "処理が異常終了しました。exit=" ++ number exitCode) }

/-! ## Signals and runs -/

/-- A signal of a process object, with the object that emits it. -/
inductive Signal where
  | readyReadStandardOutput (sender : Nat)
  | readyReadStandardError (sender : Nat)
  | finished (sender : Nat) (exitCode : Int) (exitStatus : ExitStatus)
  deriving DecidableEq, Repr

/-- The object emitting a signal. -/
def Signal.sender : Signal → Nat
  | .readyReadStandardOutput s => s
  | .readyReadStandardError s => s
  | .finished s _ _ => s

/-- Delivery of a signal through the connections made in `onRenameClicked`:
the slot connected to it runs when the sender is a connected process object,
and nothing runs otherwise.  The slots take no sender. -/
def deliver (w : Widget) (sig : Signal) : Option Widget :=
  match w.heap[sig.sender]? with
  | none => some w
  | some pr =>
    if pr.connected then
      match sig with
      | .readyReadStandardOutput _ => onProcReadyStdout w
      | .readyReadStandardError _ => onProcReadyStderr w
      | .finished _ exitCode st => some (onProcFinished w exitCode st)
    else some w

/-- The child of process object `pid` writes `out` to its standard output and
`err` to its standard error. -/
def produce (w : Widget) (pid : Nat) (out err : QString) : Widget :=
  { w with heap := (modifyProc w.heap pid
      (fun pr => { pr with stdoutData := pr.stdoutData ++ out, stderrData := pr.stderrData ++ err })) }

/-- The child of the process in `m_proc` writes `chunk` to its standard output
and the widget is notified. -/
def feedStdout (w : Widget) (chunk : QString) : Option Widget :=
  match w.m_proc with
  | none => none
  | some pid => onProcReadyStdout (produce w pid chunk [])

/-- Successive stdout chunks, one notification each. -/
def feedStdoutAll (w : Widget) : List QString → Option Widget
  | [] => some w
  | chunk :: rest => (feedStdout w chunk).bind (fun w1 => feedStdoutAll w1 rest)

/-- What can happen to a live widget. -/
inductive Op where
  | chooseFolder (dir : QString)
  | chooseExcel (file : QString)
  | renameClicked (env : Env)
  | output (pid : Nat) (out err : QString)
  | signal (sig : Signal)

/-- One step of the widget. -/
def step (w : Widget) : Op → Option Widget
  | .chooseFolder dir => some (onChooseFolder w dir)
  | .chooseExcel file => some (onChooseExcel w file)
  | .renameClicked env => some (onRenameClicked env w)
  | .output pid out err => some (produce w pid out err)
  | .signal sig => deliver w sig

/-- A run of the widget from state `w`; `none` when a slot dereferences a null
`m_proc` on the way. -/
def run (w : Widget) : List Op → Option Widget
  | [] => some w
  | op :: rest => (step w op).bind (fun w1 => run w1 rest)

/-- A live child: started and not killed. -/
def QProcess.live (pr : QProcess) : Bool := pr.running && !pr.killed

/-- An environment in which `python3` is found at `/usr/bin/python3` and the
files on disk are the script and the spreadsheet `/d/list.xlsx`. -/
def envOk (started : Bool) : Env :=
  { findExecutable := fun name => if name = lit "python3" then lit "/usr/bin/python3" else []
    fileExists := fun path =>
      path == lit "/app/scripts/rename_by_excel.py" || path == lit "/d/list.xlsx"
    applicationDirPath := lit "/app"
    currentText := lit "PDF"
    waitForStarted := started }

/-- A widget with folder and spreadsheet chosen. -/
def chosen : Widget :=
  onChooseExcel (onChooseFolder Widget.init (lit "/d")) (lit "/d/list.xlsx")

/-- A widget with a folder chosen and a spreadsheet path that is not on disk. -/
def chosenGone : Widget :=
  onChooseExcel (onChooseFolder Widget.init (lit "/d")) (lit "/d/gone.xlsx")

/-- A widget with one job running: the first click on the rename button. -/
def oneJob : Widget := onRenameClicked (envOk true) chosen

/-- A widget whose first job has been superseded by a second click. -/
def twoJobs : Widget := onRenameClicked (envOk true) oneJob

/-- A run with two clicks on the rename button, output of the first job and a
late exit notification of the first job. -/
def demoOps : List Op :=
  [Op.chooseFolder (lit "/d"), Op.chooseExcel (lit "/d/list.xlsx"),
   Op.renameClicked (envOk true), Op.output 0 (lit "PROGRESS 10 a\n") [],
   Op.signal (Signal.readyReadStandardOutput 0), Op.renameClicked (envOk true),
   Op.signal (Signal.finished 0 9 ExitStatus.CrashExit)]

/-- Every process that has been started and not killed is the one `m_proc`
points to. -/
def OnlyCurrentLive (w : Widget) : Prop :=
  ∀ (i : Nat) (pr : QProcess), w.heap[i]? = some pr → pr.live = true → w.m_proc = some i

/-- Every process object is connected to the slots, and `m_proc`, when it is
not null, points to a process object. -/
def WellFormed (w : Widget) : Prop :=
  (∀ (i : Nat) (pr : QProcess), w.heap[i]? = some pr → pr.connected = true) ∧
    (∀ i : Nat, w.m_proc = some i → i < w.heap.length)

/-- A widget whose first job has been killed by a second click whose process
failed to start. -/
def failedRestart : Widget := onRenameClicked (envOk false) oneJob

/-- The run that leads to `oneJob`. -/
def oneJobOps : List Op :=
  [Op.chooseFolder (lit "/d"), Op.chooseExcel (lit "/d/list.xlsx"),
   Op.renameClicked (envOk true)]

/-- The progress condition in the words of the specification (section 4.1):
the line begins with the literal `PROGRESS ` followed by a decimal integer
token (an optional sign and at least one digit) that is ended by the end of
the line or by whitespace, space or tab. -/
def specProgressLine (line : QString) : Bool :=
  startsWith line (lit "PROGRESS ") &&
    (let unsignedPart := (splitSign (mid line (lit "PROGRESS ").length)).2
     !(unsignedPart.takeWhile isDigit).isEmpty &&
       (match unsignedPart.dropWhile isDigit with
        | [] => true
        | c :: _ => c == ' ' || c == '\t'))

/-! ## Lemmas on the text operations -/

theorem lit_PROGRESS : lit "PROGRESS " = ['P', 'R', 'O', 'G', 'R', 'E', 'S', 'S', ' '] := rfl

theorem splitKeep_ne_nil (sep : Char) (s : QString) : splitKeep sep s ≠ [] := by
  induction s with
  | nil => simp [splitKeep]
  | cons c cs ih =>
    unfold splitKeep
    split
    · simp
    · split <;> simp

theorem splitKeep_cons_sep (sep : Char) (s : QString) :
    splitKeep sep (sep :: s) = [] :: splitKeep sep s := by
  simp [splitKeep]

theorem splitKeep_cons_ne (sep c : Char) (s : QString) (h : c ≠ sep) :
    splitKeep sep (c :: s) =
      (c :: (splitKeep sep s).headD []) :: (splitKeep sep s).tail := by
  rw [splitKeep, if_neg h]
  cases hs : splitKeep sep s with
  | nil => exact absurd hs (splitKeep_ne_nil sep s)
  | cons p ps => simp

/-- Splitting at an occurrence of the separator splits the fragment list. -/
theorem splitKeep_append_sep (sep : Char) (a b : QString) :
    splitKeep sep (a ++ sep :: b) = splitKeep sep a ++ splitKeep sep b := by
  induction a with
  | nil => simp [splitKeep]
  | cons c cs ih =>
    by_cases hc : c = sep
    · subst hc
      simp [splitKeep_cons_sep, ih]
    · rw [List.cons_append, splitKeep_cons_ne _ _ _ hc, splitKeep_cons_ne _ _ _ hc, ih]
      cases hs : splitKeep sep cs with
      | nil => exact absurd hs (splitKeep_ne_nil sep cs)
      | cons p ps => simp

/-- The fragments are those of the library function `List.splitOn`. -/
theorem splitKeep_eq_splitOn (sep : Char) (s : QString) : splitKeep sep s = s.splitOn sep := by
  induction s with
  | nil => simp [splitKeep]
  | cons c cs ih =>
    rw [List.splitOn, List.splitOnP_cons, ← List.splitOn, ← ih]
    by_cases hc : c = sep
    · subst hc; simp [splitKeep_cons_sep]
    · rw [splitKeep_cons_ne _ _ _ hc]
      have hb : (c == sep) = false := by simpa using hc
      rw [hb]
      cases hs : splitKeep sep cs with
      | nil => exact absurd hs (splitKeep_ne_nil sep cs)
      | cons q qs => simp [List.modifyHead]

/-- A text without the separator is a single fragment. -/
theorem splitKeep_of_not_mem (sep : Char) (s : QString) (h : sep ∉ s) :
    splitKeep sep s = [s] := by
  induction s with
  | nil => simp [splitKeep]
  | cons c cs ih =>
    have hc : c ≠ sep := fun e => h (by simp [e])
    have hcs : sep ∉ cs := fun e => h (by simp [e])
    rw [splitKeep_cons_ne _ _ _ hc, ih hcs]
    simp

/-- The first fragment is the text before the first separator. -/
theorem splitKeep_takeWhile (sep : Char) (s : QString) :
    splitKeep sep s =
      s.takeWhile (fun c => c != sep) ::
        (match s.dropWhile (fun c => c != sep) with
         | [] => []
         | _ :: r => splitKeep sep r) := by
  induction s with
  | nil => simp [splitKeep]
  | cons c cs ih =>
    by_cases hc : c = sep
    · subst hc
      simp [splitKeep_cons_sep]
    · rw [splitKeep_cons_ne _ _ _ hc, ih]
      simp [hc]

/-- What the progress branch computes on a line that starts with the marker:
the token is the text up to the next space, the message what follows it. -/
theorem parseProgress_marker (r : QString) :
    parseProgress (lit "PROGRESS " ++ r) =
      match toInt (r.takeWhile (fun c => c != ' ')) with
      | some p => some (p, trimmed (r.dropWhile (fun c => c != ' ')))
      | none => none := by
  have hsplit : splitKeep ' ' (lit "PROGRESS " ++ r) =
      ['P', 'R', 'O', 'G', 'R', 'E', 'S', 'S'] :: splitKeep ' ' r := by
    have h := splitKeep_append_sep ' ' ['P', 'R', 'O', 'G', 'R', 'E', 'S', 'S'] r
    have h8 : splitKeep ' ' ['P', 'R', 'O', 'G', 'R', 'E', 'S', 'S'] =
        [['P', 'R', 'O', 'G', 'R', 'E', 'S', 'S']] := by decide
    rw [h8] at h
    rw [lit_PROGRESS]
    exact h
  have hstart : startsWith (lit "PROGRESS " ++ r) (lit "PROGRESS ") = true := by
    simp [startsWith, lit_PROGRESS]
  have hdrop : mid (lit "PROGRESS " ++ r)
      ((lit "PROGRESS ").length + (r.takeWhile (fun c => c != ' ')).length) =
      r.dropWhile (fun c => c != ' ') := by
    unfold mid
    rw [← List.drop_drop, List.drop_left]
    have h := List.takeWhile_append_dropWhile (fun c => c != ' ') r
    have h2 := List.drop_left (r.takeWhile (fun c => c != ' ')) (r.dropWhile (fun c => c != ' '))
    rw [h] at h2
    exact h2
  unfold parseProgress
  rw [if_pos hstart]
  simp only [split, hsplit]
  rw [splitKeep_takeWhile ' ' r]
  simp only [List.length_cons, List.getD_cons_succ, List.getD_cons_zero]
  rw [if_pos (by omega), hdrop]

theorem parseProgress_no_marker (line : QString)
    (h : startsWith line (lit "PROGRESS ") = false) : parseProgress line = none := by
  simp [parseProgress, h]

theorem startsWith_iff (line p : QString) :
    startsWith line p = true ↔ ∃ r, line = p ++ r := by
  unfold startsWith
  rw [ List.isPrefixOf_iff_prefix]
  constructor
  · rintro ⟨r, hr⟩
    exact ⟨r, hr.symm⟩
  · rintro ⟨r, hr⟩
    exact ⟨r, hr.symm⟩

/-! ## Decimal texts -/

theorem digitChar_spec (k : Nat) (hk : k < 10) :
    isDigit (Nat.digitChar k) = true ∧ (Nat.digitChar k).toNat - 48 = k := by
  interval_cases k <;> decide

theorem digitsValue_append_single (l : QString) (d : Char) :
    digitsValue (l ++ [d]) = 10 * digitsValue l + (d.toNat - 48) := by
  simp [digitsValue, List.foldl_append]

/-- The digits produced by `Nat.toDigitsCore` in base 10 are decimal digits
whose value is the number converted. -/
theorem toDigitsCore_spec (fuel : Nat) : ∀ (n : Nat) (ds : List Char), n < fuel →
    ∃ l : List Char, Nat.toDigitsCore 10 fuel n ds = l ++ ds ∧ l ≠ [] ∧
      (∀ c ∈ l, isDigit c = true) ∧ digitsValue l = n := by
  induction fuel with
  | zero => intro n ds h; omega
  | succ fuel ih =>
    intro n ds hn
    have hd := digitChar_spec (n % 10) (Nat.mod_lt _ (by decide))
    by_cases h0 : n / 10 = 0
    · refine ⟨[Nat.digitChar (n % 10)], ?_, by simp, ?_, ?_⟩
      · simp [Nat.toDigitsCore, h0]
      · intro c hc
        simp only [List.mem_singleton] at hc
        rw [hc]; exact hd.1
      · have : digitsValue [Nat.digitChar (n % 10)] = (Nat.digitChar (n % 10)).toNat - 48 := by
          simp [digitsValue]
        rw [this, hd.2]
        omega
    · have hlt : n / 10 < fuel := by omega
      obtain ⟨l, hl, _, hdig, hval⟩ := ih (n / 10) (Nat.digitChar (n % 10) :: ds) hlt
      refine ⟨l ++ [Nat.digitChar (n % 10)], ?_, by simp, ?_, ?_⟩
      · simp [Nat.toDigitsCore, h0, hl]
      · intro c hc
        rcases List.mem_append.1 hc with hc | hc
        · exact hdig c hc
        · simp only [List.mem_singleton] at hc
          rw [hc]; exact hd.1
      · rw [digitsValue_append_single, hval, hd.2]
        omega

theorem toDigits_spec (n : Nat) :
    Nat.toDigits 10 n ≠ [] ∧ (∀ c ∈ Nat.toDigits 10 n, isDigit c = true) ∧
      digitsValue (Nat.toDigits 10 n) = n := by
  obtain ⟨l, hl, hne, hdig, hval⟩ := toDigitsCore_spec (n + 1) n [] (by omega)
  have : Nat.toDigits 10 n = l := by simpa [Nat.toDigits] using hl
  rw [this]
  exact ⟨hne, hdig, hval⟩

theorem isDigit_not_space (c : Char) (h : isDigit c = true) : isSpace c = false := by
  simp only [isDigit, Bool.and_eq_true, decide_eq_true_eq] at h
  simp only [isSpace, Bool.or_eq_false_iff, Bool.and_eq_false_iff, beq_eq_false_iff_ne,
    decide_eq_false_iff_not]
  omega

theorem trimmed_cons_space (c : Char) (t : QString) (h : isSpace c = true) :
    trimmed (c :: t) = trimmed t := by
  simp [trimmed, List.dropWhile_cons, h]

/-- A text that neither starts nor ends with whitespace is its own trimming. -/
theorem trimmed_eq_self (s : QString)
    (h1 : ∀ c, s.head? = some c → isSpace c = false)
    (h2 : ∀ c, s.getLast? = some c → isSpace c = false) : trimmed s = s := by
  cases s with
  | nil => simp [trimmed]
  | cons c cs =>
    have hc : isSpace c = false := h1 c rfl
    have hd : (c :: cs).dropWhile isSpace = c :: cs := by
      simp [List.dropWhile_cons, hc]
    rcases List.eq_nil_or_concat (c :: cs) with hnil | ⟨l, b, hl⟩
    · simp at hnil
    · have hb : isSpace b = false := h2 b (by rw [hl]; simp)
      unfold trimmed
      rw [hd, hl]
      simp [List.dropWhile_cons, hb]

theorem toInt_digits (ds : QString) (hne : ds ≠ []) (hdig : ∀ c ∈ ds, isDigit c = true)
    (hr : digitsValue ds ≤ 2147483647) : toInt ds = some (digitsValue ds : Int) := by
  have htrim : trimmed ds = ds := by
    apply trimmed_eq_self
    · intro c hc
      exact isDigit_not_space c (hdig c (List.mem_of_mem_head? hc))
    · intro c hc
      exact isDigit_not_space c (hdig c (List.mem_of_mem_getLast? hc))
  have hsign : splitSign ds = (false, ds) := by
    cases ds with
    | nil => rfl
    | cons c cs =>
      have h := hdig c (by simp)
      have h1 : c ≠ '-' := by rintro rfl; revert h; decide
      have h2 : c ≠ '+' := by rintro rfl; revert h; decide
      simp [splitSign, h1, h2]
  have hall : ds.all isDigit = true := by simpa [List.all_eq_true] using hdig
  unfold toInt
  simp only [htrim, hsign]
  rw [if_pos ⟨hne, hall⟩]
  simp only [Bool.false_eq_true, if_false]
  rw [if_pos (by constructor <;> omega)]

theorem toInt_minus_digits (ds : QString) (hne : ds ≠ []) (hdig : ∀ c ∈ ds, isDigit c = true)
    (hr : digitsValue ds ≤ 2147483648) :
    toInt ('-' :: ds) = some (-(digitsValue ds : Int)) := by
  have htrim : trimmed ('-' :: ds) = '-' :: ds := by
    apply trimmed_eq_self
    · intro c hc
      simp only [List.head?_cons, Option.some.injEq] at hc
      subst hc; decide
    · intro c hc
      obtain ⟨d, ds1, rfl⟩ := List.exists_cons_of_ne_nil hne
      rw [List.getLast?_cons_cons] at hc
      exact isDigit_not_space c (hdig c (List.mem_of_mem_getLast? hc))
  have hall : ds.all isDigit = true := by simpa [List.all_eq_true] using hdig
  unfold toInt
  simp only [htrim, splitSign, if_true]
  rw [if_pos ⟨hne, hall⟩]
  rw [if_pos (by constructor <;> omega)]

/-- `toInt` reads back what `number` writes, for every 32-bit value. -/
theorem toInt_number (n : Int) (h1 : -2147483648 ≤ n) (h2 : n ≤ 2147483647) :
    toInt (number n) = some n := by
  cases n with
  | ofNat m =>
    rw [Int.ofNat_eq_coe] at h1 h2 ⊢
    obtain ⟨hne, hdig, hval⟩ := toDigits_spec m
    have h := toInt_digits (Nat.toDigits 10 m) hne hdig (by rw [hval]; omega)
    rw [hval] at h
    exact h
  | negSucc m =>
    rw [Int.negSucc_eq] at h1 h2 ⊢
    obtain ⟨hne, hdig, hval⟩ := toDigits_spec (m + 1)
    have h := toInt_minus_digits (Nat.toDigits 10 (m + 1)) hne hdig (by rw [hval]; omega)
    rw [hval] at h
    have hn : number (-((m : Int) + 1)) = '-' :: Nat.toDigits 10 (m + 1) := by
      rw [← Int.negSucc_eq]; rfl
    rw [hn, h]
    push_cast
    rfl

/-- The text of a number has no space and no line terminator in it. -/
theorem number_chars (n : Int) : ∀ c ∈ number n, c = '-' ∨ isDigit c = true := by
  intro c hc
  cases n with
  | ofNat m => exact Or.inr ((toDigits_spec m).2.1 c (by simpa [number] using hc))
  | negSucc m =>
    simp only [number, List.mem_cons] at hc
    rcases hc with hc | hc
    · exact Or.inl hc
    · exact Or.inr ((toDigits_spec (m + 1)).2.1 c hc)

theorem number_not_mem (n : Int) (c : Char) (h1 : c ≠ '-') (h2 : isDigit c = false) :
    c ∉ number n := by
  intro hc
  rcases number_chars n c hc with h | h
  · exact h1 h
  · rw [h] at h2; exact Bool.noConfusion h2

/-! ## Lemmas on the loops -/

theorem takeWhile_dropWhile_token (sep : Char) (tok rest : QString) (htok : sep ∉ tok)
    (hrest : rest = [] ∨ ∃ r, rest = sep :: r) :
    (tok ++ rest).takeWhile (fun c => c != sep) = tok ∧
      (tok ++ rest).dropWhile (fun c => c != sep) = rest := by
  induction tok with
  | nil =>
    rcases hrest with h | ⟨r, h⟩
    · subst h; simp
    · subst h; simp
  | cons c cs ih =>
    have hc : c ≠ sep := fun e => htok (by simp [e])
    have hcs : sep ∉ cs := fun e => htok (by simp [e])
    obtain ⟨h1, h2⟩ := ih hcs
    simp [List.takeWhile_cons, List.dropWhile_cons, hc, h1, h2]

/-- The progress branch on marker, token and remainder: the token is what
`toInt` is applied to, the remainder what is trimmed into the message. -/
theorem parseProgress_token (tok rest : QString) (htok : ' ' ∉ tok)
    (hrest : rest = [] ∨ ∃ r, rest = ' ' :: r) :
    parseProgress (lit "PROGRESS " ++ (tok ++ rest)) =
      (toInt tok).map (fun p => (p, trimmed rest)) := by
  obtain ⟨h1, h2⟩ := takeWhile_dropWhile_token ' ' tok rest htok hrest
  rw [parseProgress_marker, h1, h2]
  cases toInt tok <;> rfl

theorem split_skip_single (line : QString) (hne : line ≠ []) (hnl : '\n' ∉ line) :
    split '\n' SplitBehavior.SkipEmptyParts line = [line] := by
  simp only [split]
  rw [splitKeep_of_not_mem _ _ hnl]
  cases line with
  | nil => exact absurd rfl hne
  | cons c cs => simp

/-- On a text that is one non-empty line the stdout loop runs its body once. -/
theorem stdoutText_single (ui : Ui) (line : QString) (hne : line ≠ []) (hnl : '\n' ∉ line) :
    stdoutText ui line = stdoutLine ui line := by
  simp [stdoutText, split_skip_single line hne hnl]

theorem stderrText_single (ui : Ui) (line : QString) (hne : line ≠ []) (hnl : '\n' ∉ line) :
    stderrText ui line = logErr ui line := by
  simp [stderrText, split_skip_single line hne hnl]

/-- What the slot computes, given the process object `m_proc` points to. -/
theorem onProcReadyStdout_eq (w : Widget) (pid : Nat) (pr : QProcess)
    (hproc : w.m_proc = some pid) (hheap : w.heap[pid]? = some pr) :
    onProcReadyStdout w =
      some { w with ui := stdoutText w.ui pr.stdoutData,
                    heap := w.heap.set pid { pr with stdoutData := [] } } := by
  simp [onProcReadyStdout, hproc, hheap]

theorem onProcReadyStderr_eq (w : Widget) (pid : Nat) (pr : QProcess)
    (hproc : w.m_proc = some pid) (hheap : w.heap[pid]? = some pr) :
    onProcReadyStderr w =
      some { w with ui := stderrText w.ui pr.stderrData,
                    heap := w.heap.set pid { pr with stderrData := [] } } := by
  simp [onProcReadyStderr, hproc, hheap]

/-- The stdout loop on a line made of the marker, the decimal text of a 32-bit
value, a space and a text without line terminator. -/
theorem stdoutText_progress (ui : Ui) (n : Int) (t : QString)
    (h1 : -2147483648 ≤ n) (h2 : n ≤ 2147483647) (ht : '\n' ∉ t) :
    stdoutText ui (lit "PROGRESS " ++ number n ++ ' ' :: t) = setProgress ui n (trimmed t) := by
  have hsp : ' ' ∉ number n := number_not_mem n ' ' (by decide) (by decide)
  have hnl : '\n' ∉ number n := number_not_mem n '\n' (by decide) (by decide)
  have hline : '\n' ∉ lit "PROGRESS " ++ number n ++ ' ' :: t := by
    simp only [List.mem_append, List.mem_cons, not_or]
    exact ⟨⟨by decide, hnl⟩, by decide, ht⟩
  have hparse : parseProgress (lit "PROGRESS " ++ number n ++ ' ' :: t) =
      some (n, trimmed t) := by
    rw [List.append_assoc, parseProgress_token (number n) (' ' :: t) hsp (Or.inr ⟨t, rfl⟩),
      toInt_number n h1 h2, trimmed_cons_space ' ' t (by decide)]
    rfl
  rw [stdoutText_single _ _ (by simp [lit_PROGRESS]) hline]
  unfold stdoutLine
  rw [hparse]

/-! ## C1 -/

/-- C1: for every integer `p` with `0 ≤ p ≤ 100`, written in decimal, and every
text `t` without a line terminator, `onProcReadyStdout` reading the line
`PROGRESS p t` makes exactly one presentation call, `setProgress(p, t.trimmed())`,
which sets the progress bar to `p`, and appends nothing to either log pane. -/
theorem C1_progress_line (w : Widget) (pid : Nat) (pr : QProcess) (p : Int) (t : QString)
    (hp0 : 0 ≤ p) (hp1 : p ≤ 100) (ht : '\n' ∉ t)
    (hproc : w.m_proc = some pid) (hheap : w.heap[pid]? = some pr)
    (hdata : pr.stdoutData = lit "PROGRESS " ++ number p ++ ' ' :: t) :
    ∃ w1, onProcReadyStdout w = some w1 ∧
      w1.ui = setProgress w.ui p (trimmed t) ∧
      w1.ui.calls = w.ui.calls ++ [Call.setProgress p (trimmed t)] ∧
      w1.ui.progressBar = p ∧
      w1.ui.textBrowser_2 = w.ui.textBrowser_2 ∧
      w1.ui.textBrowser = w.ui.textBrowser := by
  have hui : stdoutText w.ui pr.stdoutData = setProgress w.ui p (trimmed t) := by
    rw [hdata, stdoutText_progress w.ui p t (by omega) (by omega) ht]
  refine ⟨_, onProcReadyStdout_eq w pid pr hproc hheap, ?_, ?_, ?_, ?_, ?_⟩
  · exact hui
  · show (stdoutText w.ui pr.stdoutData).calls = _
    rw [hui]; rfl
  · show (stdoutText w.ui pr.stdoutData).progressBar = _
    rw [hui]
    show qBound 0 p 100 = p
    unfold qBound
    rw [min_eq_right hp1, max_eq_right hp0]
  · show (stdoutText w.ui pr.stdoutData).textBrowser_2 = _
    rw [hui]; rfl
  · show (stdoutText w.ui pr.stdoutData).textBrowser = _
    rw [hui]; rfl

/-- C1 at `PROGRESS 35  ready ` read from the process of a running job. -/
theorem C1_progress_line_witness :
    ∃ w1, onProcReadyStdout (produce oneJob 0 (lit "PROGRESS 35  ready ") []) = some w1 ∧
      w1.ui.calls = oneJob.ui.calls ++ [Call.setProgress 35 (lit "ready")] := by
  obtain ⟨w1, h1, _, h3, _⟩ := C1_progress_line
    (produce oneJob 0 (lit "PROGRESS 35  ready ") [])
    0 ((produce oneJob 0 (lit "PROGRESS 35  ready ") []).heap.head (by decide))
    35 (lit " ready ") (by decide) (by decide) (by decide) (by decide) (by decide) (by decide)
  exact ⟨w1, h1, h3⟩

/-! ## C2 -/

/-- What `setProgress` shows for 150: the bar is clamped to 100, the status
text carries the unclamped 150. -/
theorem setProgress_150 :
    ∃ w1, onProcReadyStdout (produce oneJob 0 (lit "PROGRESS 150 done") []) = some w1 ∧
      w1.ui.calls = oneJob.ui.calls ++ [Call.setProgress 150 (lit "done")] ∧
      w1.ui.progressBar = 100 ∧
      w1.ui.label_5 = lit "進捗: 150%  done" := by
  refine ⟨_, rfl, ?_, ?_, ?_⟩ <;> decide

/-- C2 as stated fails: the integer 99999999999 is outside `[0,100]`, yet the
line `PROGRESS 99999999999 done` is appended to the log with its full text and
no progress update is made; and for 150 the status text set by `setProgress`
shows 150, not the clamped 100. -/
theorem C2_counterexample :
    (onProcReadyStdout (produce oneJob 0 (lit "PROGRESS 99999999999 done") [])).map
        (fun w1 => w1.ui) = some (logOk oneJob.ui (lit "PROGRESS 99999999999 done")) ∧
      (onProcReadyStdout (produce oneJob 0 (lit "PROGRESS 150 done") [])).map
        (fun w1 => w1.ui.label_5) = some (lit "進捗: 150%  done") := by
  refine ⟨?_, ?_⟩ <;> decide

/-- C2 (amended): for every integer `n` outside `[0,100]` that fits a 32-bit
`int`, written in decimal, and every message text without a line terminator,
`onProcReadyStdout` reading the line `PROGRESS n message` makes exactly one
call, the progress update `setProgress(n, message.trimmed())`, appends nothing
to either log pane, and sets the progress bar to `n` clamped into `[0,100]`:
0 for a negative `n`, 100 for `n` above 100. -/
theorem C2_out_of_range_progress (w : Widget) (pid : Nat) (pr : QProcess) (n : Int)
    (t : QString) (hn : n < 0 ∨ 100 < n) (h1 : -2147483648 ≤ n) (h2 : n ≤ 2147483647)
    (ht : '\n' ∉ t) (hproc : w.m_proc = some pid) (hheap : w.heap[pid]? = some pr)
    (hdata : pr.stdoutData = lit "PROGRESS " ++ number n ++ ' ' :: t) :
    ∃ w1, onProcReadyStdout w = some w1 ∧
      w1.ui.calls = w.ui.calls ++ [Call.setProgress n (trimmed t)] ∧
      w1.ui.textBrowser_2 = w.ui.textBrowser_2 ∧
      w1.ui.textBrowser = w.ui.textBrowser ∧
      w1.ui.progressBar = (if n < 0 then 0 else 100) := by
  have hui : stdoutText w.ui pr.stdoutData = setProgress w.ui n (trimmed t) := by
    rw [hdata, stdoutText_progress w.ui n t h1 h2 ht]
  refine ⟨_, onProcReadyStdout_eq w pid pr hproc hheap, ?_, ?_, ?_, ?_⟩
  · show (stdoutText w.ui pr.stdoutData).calls = _
    rw [hui]; rfl
  · show (stdoutText w.ui pr.stdoutData).textBrowser_2 = _
    rw [hui]; rfl
  · show (stdoutText w.ui pr.stdoutData).textBrowser = _
    rw [hui]; rfl
  · show (stdoutText w.ui pr.stdoutData).progressBar = _
    rw [hui]
    show qBound 0 n 100 = _
    unfold qBound
    rcases hn with hn | hn
    · rw [if_pos hn, min_eq_right (by omega), max_eq_left (by omega)]
    · rw [if_neg (by omega), min_eq_left (by omega), max_eq_right (by omega)]

/-- C2 (amended) at the line `PROGRESS 150 done`. -/
theorem C2_out_of_range_progress_witness :
    ∃ w1, onProcReadyStdout (produce oneJob 0 (lit "PROGRESS 150 done") []) = some w1 ∧
      w1.ui.calls = oneJob.ui.calls ++ [Call.setProgress 150 (lit "done")] ∧
      w1.ui.progressBar = 100 := by
  obtain ⟨w1, h1, h2, _, _, h5⟩ := C2_out_of_range_progress
    (produce oneJob 0 (lit "PROGRESS 150 done") []) 0
    ((produce oneJob 0 (lit "PROGRESS 150 done") []).heap.head (by decide))
    150 (lit "done") (by decide) (by decide) (by decide) (by decide) (by decide) (by decide)
    (by decide)
  exact ⟨w1, h1, h2, h5⟩

/-! ## C3 -/

theorem token_decomp (sep : Char) (r : QString) :
    ∃ tok rest, r = tok ++ rest ∧ sep ∉ tok ∧ (rest = [] ∨ ∃ r1, rest = sep :: r1) := by
  induction r with
  | nil => exact ⟨[], [], rfl, by simp, Or.inl rfl⟩
  | cons c cs ih =>
    by_cases hc : c = sep
    · exact ⟨[], c :: cs, rfl, by simp, Or.inr ⟨cs, by rw [hc]⟩⟩
    · obtain ⟨tok, rest, h1, h2, h3⟩ := ih
      refine ⟨c :: tok, rest, by rw [h1]; rfl, ?_, h3⟩
      simp only [List.mem_cons, not_or]
      exact ⟨fun e => hc e.symm, h2⟩

/-- The progress branch is taken exactly on marker, space-free token accepted
by `toInt`, and a remainder that is empty or starts with a space. -/
theorem parseProgress_isSome_iff (line : QString) :
    (parseProgress line).isSome = true ↔
      ∃ tok rest, line = lit "PROGRESS " ++ (tok ++ rest) ∧ ' ' ∉ tok ∧
        (rest = [] ∨ ∃ r1, rest = ' ' :: r1) ∧ (toInt tok).isSome = true := by
  constructor
  · intro h
    cases hs : startsWith line (lit "PROGRESS ") with
    | false => rw [parseProgress_no_marker line hs] at h; exact absurd h (by simp)
    | true =>
      obtain ⟨r, hr⟩ := (startsWith_iff _ _).1 hs
      obtain ⟨tok, rest, h1, h2, h3⟩ := token_decomp ' ' r
      refine ⟨tok, rest, by rw [hr, h1], h2, h3, ?_⟩
      rw [hr, h1, parseProgress_token tok rest h2 h3] at h
      cases ht : toInt tok with
      | none => rw [ht] at h; exact absurd h (by simp)
      | some p => rfl
  · rintro ⟨tok, rest, h1, h2, h3, h4⟩
    rw [h1, parseProgress_token tok rest h2 h3]
    cases ht : toInt tok with
    | none => rw [ht] at h4; exact absurd h4 (by simp)
    | some p => rfl

theorem logOk_ne_setProgress (ui : Ui) (line : QString) (p : Int) (msg : QString) :
    logOk ui line ≠ setProgress ui p msg := by
  intro h
  have hc : (logOk ui line).calls = (setProgress ui p msg).calls := by rw [h]
  simp [logOk, setProgress] at hc

/-- C3 (amended): reading a non-empty line, `onProcReadyStdout` returns without
error, and it makes a progress update if and only if the line is the literal
`PROGRESS ` followed by a token without a space that `toInt` accepts and that
is ended by the end of the line or by a space; the update then carries the
value of the token and the trimmed remainder.  In every other case the line is
appended to the log with its full text. -/
theorem C3_progress_iff_token (w : Widget) (pid : Nat) (pr : QProcess)
    (hproc : w.m_proc = some pid) (hheap : w.heap[pid]? = some pr)
    (hne : pr.stdoutData ≠ []) (hnl : '\n' ∉ pr.stdoutData) :
    ∃ w1, onProcReadyStdout w = some w1 ∧
      ((∃ p msg, w1.ui = setProgress w.ui p msg) ↔
        ∃ tok rest, pr.stdoutData = lit "PROGRESS " ++ (tok ++ rest) ∧ ' ' ∉ tok ∧
          (rest = [] ∨ ∃ r1, rest = ' ' :: r1) ∧ (toInt tok).isSome = true) ∧
      (∀ tok rest p, pr.stdoutData = lit "PROGRESS " ++ (tok ++ rest) → ' ' ∉ tok →
          (rest = [] ∨ ∃ r1, rest = ' ' :: r1) → toInt tok = some p →
          w1.ui = setProgress w.ui p (trimmed rest)) ∧
      ((¬ ∃ tok rest, pr.stdoutData = lit "PROGRESS " ++ (tok ++ rest) ∧ ' ' ∉ tok ∧
          (rest = [] ∨ ∃ r1, rest = ' ' :: r1) ∧ (toInt tok).isSome = true) →
        w1.ui = logOk w.ui pr.stdoutData) := by
  refine ⟨_, onProcReadyStdout_eq w pid pr hproc hheap, ?_, ?_, ?_⟩
  · show (∃ p msg, stdoutText w.ui pr.stdoutData = setProgress w.ui p msg) ↔ _
    rw [stdoutText_single _ _ hne hnl, ← parseProgress_isSome_iff]
    unfold stdoutLine
    cases hp : parseProgress pr.stdoutData with
    | none =>
      constructor
      · rintro ⟨p, msg, h⟩
        exact absurd h (logOk_ne_setProgress _ _ _ _)
      · intro h; exact absurd h (by simp)
    | some pm => exact ⟨fun _ => rfl, fun _ => ⟨pm.1, pm.2, rfl⟩⟩
  · intro tok rest p h1 h2 h3 h4
    show stdoutText w.ui pr.stdoutData = _
    rw [stdoutText_single _ _ hne hnl]
    unfold stdoutLine
    rw [h1, parseProgress_token tok rest h2 h3, h4]
    rfl
  · intro h
    show stdoutText w.ui pr.stdoutData = _
    rw [stdoutText_single _ _ hne hnl]
    unfold stdoutLine
    rw [← parseProgress_isSome_iff] at h
    cases hp : parseProgress pr.stdoutData with
    | none => rfl
    | some pm => rw [hp] at h; exact absurd rfl h

/-- C3 (amended) at the line `PROGRESS 42 ok`. -/
theorem C3_progress_iff_token_witness :
    ∃ w1, onProcReadyStdout (produce oneJob 0 (lit "PROGRESS 42 ok") []) = some w1 ∧
      w1.ui = setProgress oneJob.ui 42 (lit "ok") := by
  obtain ⟨w1, h1, _, h3, _⟩ := C3_progress_iff_token
    (produce oneJob 0 (lit "PROGRESS 42 ok") []) 0
    ((produce oneJob 0 (lit "PROGRESS 42 ok") []).heap.head (by decide))
    (by decide) (by decide) (by decide) (by decide)
  exact ⟨w1, h1, h3 (lit "42") (lit " ok") 42 (by decide) (by decide) (Or.inr ⟨_, rfl⟩) (by decide)⟩

/-- C3 as stated fails: in `PROGRESS 5<TAB>msg` the marker is followed by the
decimal integer token `5` ended by a tab, yet the line is logged with its
full text and no progress update is made. -/
theorem C3_tab_counterexample :
    specProgressLine (lit "PROGRESS 5\tmsg") = true ∧
      parseProgress (lit "PROGRESS 5\tmsg") = none ∧
      (onProcReadyStdout (produce oneJob 0 (lit "PROGRESS 5\tmsg") [])).map (fun w1 => w1.ui) =
        some (logOk oneJob.ui (lit "PROGRESS 5\tmsg")) := by
  refine ⟨?_, ?_, ?_⟩ <;> decide

/-! ## Chunks and lines -/

theorem filter_nonempty_splitKeep_nil (sep : Char) :
    (splitKeep sep []).filter (fun part => !part.isEmpty) = [] := by
  simp [splitKeep]

/-- A chunk boundary on a line boundary does not change the fragments. -/
theorem split_skip_append (a b : QString)
    (h : a.getLast? = some '\n' ∨ b.head? = some '\n' ∨ a = [] ∨ b = []) :
    split '\n' SplitBehavior.SkipEmptyParts (a ++ b) =
      split '\n' SplitBehavior.SkipEmptyParts a ++ split '\n' SplitBehavior.SkipEmptyParts b := by
  simp only [split]
  rcases h with h | h | h | h
  · obtain ⟨a1, rfl⟩ := List.getLast?_eq_some_iff.1 h
    have e1 : a1 ++ ['\n'] ++ b = a1 ++ '\n' :: b := by simp
    have e2 : a1 ++ ['\n'] = a1 ++ '\n' :: [] := rfl
    rw [e1, splitKeep_append_sep, e2, splitKeep_append_sep, List.filter_append,
      List.filter_append, filter_nonempty_splitKeep_nil, List.append_nil]
  · obtain ⟨b1, rfl⟩ := List.head?_eq_some_iff.1 h
    rw [splitKeep_append_sep, splitKeep_cons_sep, List.filter_append]
    simp
  · subst h
    simp [filter_nonempty_splitKeep_nil]
  · subst h
    simp [filter_nonempty_splitKeep_nil]

theorem stdoutText_append (ui : Ui) (a b : QString)
    (h : a.getLast? = some '\n' ∨ b.head? = some '\n' ∨ a = [] ∨ b = []) :
    stdoutText (stdoutText ui a) b = stdoutText ui (a ++ b) := by
  simp only [stdoutText]
  rw [split_skip_append a b h, List.foldl_append]

theorem stdoutText_nil (ui : Ui) : stdoutText ui [] = ui := by
  simp [stdoutText, split, splitKeep]

/-- Chunks that each end with the line terminator are handled like their
concatenation. -/
theorem stdoutText_chunks (chunks : List QString) :
    ∀ ui : Ui, (∀ c ∈ chunks, c.getLast? = some '\n') →
      chunks.foldl stdoutText ui = stdoutText ui chunks.flatten := by
  induction chunks with
  | nil => intro ui _; simp [stdoutText_nil]
  | cons c cs ih =>
    intro ui h
    rw [List.foldl_cons, ih _ (fun c1 hc1 => h c1 (List.mem_cons_of_mem _ hc1)),
      stdoutText_append _ _ _ (Or.inl (h c (List.mem_cons_self _ _)))]
    rfl

/-- The fragments of lines joined by the separator are the lines. -/
theorem split_skip_joinWith (sep : Char) : ∀ lines : List QString, (∀ l ∈ lines, sep ∉ l) →
    (splitKeep sep (joinWith sep lines)).filter (fun part => !part.isEmpty) =
      lines.filter (fun l => !l.isEmpty)
  | [], _ => by simp [joinWith, splitKeep]
  | [a], h => by
    rw [joinWith, splitKeep_of_not_mem sep a (h a (by simp))]
  | a :: b :: rest, h => by
    rw [joinWith, splitKeep_append_sep, splitKeep_of_not_mem sep a (h a (by simp)),
      List.filter_append,
      split_skip_joinWith sep (b :: rest) (fun l hl => h l (List.mem_cons_of_mem _ hl)),
      ← List.filter_append]
    rfl

theorem stdoutLine_calls (ui : Ui) (line : QString) :
    (stdoutLine ui line).calls = ui.calls ++ [lineCall line] := by
  unfold stdoutLine lineCall
  cases parseProgress line with
  | none => rfl
  | some pm => rfl

theorem foldl_stdoutLine_calls (lines : List QString) :
    ∀ ui : Ui, (lines.foldl stdoutLine ui).calls = ui.calls ++ lines.map lineCall := by
  induction lines with
  | nil => intro ui; simp
  | cons l ls ih =>
    intro ui
    rw [List.foldl_cons, ih, stdoutLine_calls]
    simp

theorem set_self (heap : List QProcess) (pid : Nat) (pr : QProcess)
    (h : heap[pid]? = some pr) : heap.set pid pr = heap := by
  apply List.ext_getElem?
  intro n
  rw [List.getElem?_set]
  by_cases hn : pid = n
  · subst hn
    have hlt : pid < heap.length := (List.getElem?_eq_some.1 h).1
    simp [hlt, h]
  · simp [hn]

/-- One chunk arriving at a process whose output has all been read. -/
theorem feedStdout_eq (w : Widget) (pid : Nat) (pr : QProcess) (chunk : QString)
    (hproc : w.m_proc = some pid) (hheap : w.heap[pid]? = some pr)
    (hread : pr.stdoutData = []) :
    feedStdout w chunk = some { w with ui := stdoutText w.ui chunk } := by
  have hlt : pid < w.heap.length := (List.getElem?_eq_some.1 hheap).1
  have hpr : { pr with stdoutData := [], stderrData := pr.stderrData } = pr := by
    cases pr; simp at hread; simp [hread]
  unfold feedStdout
  rw [hproc]
  simp only
  rw [onProcReadyStdout_eq (produce w pid chunk []) pid
    { pr with stdoutData := pr.stdoutData ++ chunk, stderrData := pr.stderrData ++ [] } hproc
    (by simp [produce, modifyProc, hheap, List.getElem?_set_self hlt])]
  simp only [produce, modifyProc, hheap, List.set_set, List.append_nil, hpr, set_self _ _ _ hheap,
    hread, hproc, List.nil_append]

theorem feedStdoutAll_eq (chunks : List QString) :
    ∀ (w : Widget) (pid : Nat) (pr : QProcess), w.m_proc = some pid → w.heap[pid]? = some pr →
      pr.stdoutData = [] →
      feedStdoutAll w chunks = some { w with ui := chunks.foldl stdoutText w.ui } := by
  induction chunks with
  | nil => intro w pid pr _ _ _; rfl
  | cons c cs ih =>
    intro w pid pr hproc hheap hread
    rw [feedStdoutAll, feedStdout_eq w pid pr c hproc hheap hread]
    simp only [Option.bind]
    rw [ih { w with ui := stdoutText w.ui c } pid pr hproc hheap hread]
    rfl

/-! ## C4 -/

/-- C4 as stated fails: the chunks `PROGR` and `ESS 30 x` with its terminator
give two log entries, the first made as soon as the first chunk is read, where
the same text in one chunk gives the single progress update `(30, x)`. -/
theorem C4_split_line_counterexample :
    (feedStdout oneJob (lit "PROGR")).map (fun w1 => w1.ui.calls) =
        some (oneJob.ui.calls ++ [Call.logOk (lit "PROGR")]) ∧
      (feedStdoutAll oneJob [lit "PROGR", lit "ESS 30 x\n"]).map (fun w1 => w1.ui.calls) =
        some (oneJob.ui.calls ++ [Call.logOk (lit "PROGR"), Call.logOk (lit "ESS 30 x")]) ∧
      (feedStdout oneJob (lit "PROGRESS 30 x\n")).map (fun w1 => w1.ui.calls) =
        some (oneJob.ui.calls ++ [Call.setProgress 30 (lit "x")]) := by
  refine ⟨?_, ?_, ?_⟩ <;> decide

/-- C4 (amended): when the chunk boundary falls on a line boundary (the first
chunk is empty or ends with the line terminator, or the second is empty or
begins with it), handling the two chunks in successive calls leaves the widget
in the same state, with the same calls made, as handling their concatenation
in one call.  Nothing is held back between calls: a chunk that is a single
unterminated fragment is handled as a line at once. -/
theorem C4_boundary_on_line_end (w : Widget) (pid : Nat) (pr : QProcess) (a b : QString)
    (hproc : w.m_proc = some pid) (hheap : w.heap[pid]? = some pr) (hread : pr.stdoutData = [])
    (h : a.getLast? = some '\n' ∨ b.head? = some '\n' ∨ a = [] ∨ b = []) :
    feedStdoutAll w [a, b] = feedStdout w (a ++ b) ∧
      feedStdout w (a ++ b) = some { w with ui := stdoutText w.ui (a ++ b) } ∧
      (∀ frag : QString, frag ≠ [] → '\n' ∉ frag →
        feedStdout w frag = some { w with ui := stdoutLine w.ui frag }) := by
  refine ⟨?_, feedStdout_eq w pid pr _ hproc hheap hread, ?_⟩
  · rw [feedStdoutAll_eq [a, b] w pid pr hproc hheap hread,
      feedStdout_eq w pid pr _ hproc hheap hread]
    simp only [List.foldl_cons, List.foldl_nil]
    rw [stdoutText_append _ _ _ h]
  · intro frag hne hnl
    rw [feedStdout_eq w pid pr _ hproc hheap hread, stdoutText_single _ _ hne hnl]

/-- C4 (amended) at the chunks `PROGRESS 30 x` with its terminator and `done`. -/
theorem C4_boundary_on_line_end_witness :
    feedStdoutAll oneJob [lit "PROGRESS 30 x\n", lit "done"] =
      feedStdout oneJob (lit "PROGRESS 30 x\ndone") :=
  (C4_boundary_on_line_end oneJob 0 (oneJob.heap.head (by decide))
    (lit "PROGRESS 30 x\n") (lit "done") (by decide) (by decide) (by decide)
    (Or.inl (by decide))).1

/-! ## C5 -/

/-- C5: stdout chunks that each end with the line terminator, read one per
call by a process whose earlier output has all been read, make exactly the
calls of the lines of the concatenated input: one call per non-empty line, in
the order of the lines, each the call the loop body makes for that line. -/
theorem C5_terminated_chunks (w : Widget) (pid : Nat) (pr : QProcess)
    (chunks lines : List QString)
    (hproc : w.m_proc = some pid) (hheap : w.heap[pid]? = some pr) (hread : pr.stdoutData = [])
    (hchunks : ∀ c ∈ chunks, c.getLast? = some '\n')
    (hlines : ∀ l ∈ lines, '\n' ∉ l)
    (hjoin : chunks.flatten = joinWith '\n' lines) :
    ∃ w1, feedStdoutAll w chunks = some w1 ∧
      w1.ui = (lines.filter (fun l => !l.isEmpty)).foldl stdoutLine w.ui ∧
      w1.ui.calls = w.ui.calls ++ (lines.filter (fun l => !l.isEmpty)).map lineCall := by
  have hui : chunks.foldl stdoutText w.ui =
      (lines.filter (fun l => !l.isEmpty)).foldl stdoutLine w.ui := by
    rw [stdoutText_chunks chunks w.ui hchunks, hjoin]
    simp only [stdoutText, split]
    rw [split_skip_joinWith '\n' lines hlines]
  refine ⟨_, feedStdoutAll_eq chunks w pid pr hproc hheap hread, hui, ?_⟩
  show (chunks.foldl stdoutText w.ui).calls = _
  rw [hui, foldl_stdoutLine_calls]

/-- C5 at the two chunks of the specification's example. -/
theorem C5_terminated_chunks_witness :
    ∃ w1, feedStdoutAll oneJob [lit "PROGRESS 10 a\nhello\n", lit "PROGRESS 20 b\n"] = some w1 ∧
      w1.ui.calls = oneJob.ui.calls ++
        [Call.setProgress 10 (lit "a"), Call.logOk (lit "hello"), Call.setProgress 20 (lit "b")] := by
  obtain ⟨w1, h1, _, h3⟩ := C5_terminated_chunks oneJob 0 (oneJob.heap.head (by decide))
    [lit "PROGRESS 10 a\nhello\n", lit "PROGRESS 20 b\n"]
    [lit "PROGRESS 10 a", lit "hello", lit "PROGRESS 20 b", []]
    (by decide) (by decide) (by decide) (by decide) (by decide) (by decide)
  refine ⟨w1, h1, ?_⟩
  rw [h3]
  decide

/-! ## C9 -/

/-- C9: for every exit code and exit status, `onProcFinished` makes the success
report if and only if the status is a normal exit and the code is 0: it then
sets the progress bar to 100 and the status text to 100% with the completion
message, appends the success entry to the information pane and leaves the
error pane alone.  In every other case it makes the failure report: one entry
appended to the error pane, ending in the decimal text of the exit code, with
the progress bar, the status text and the information pane unchanged; the
32-bit exit code is read back unchanged from that text.  Nothing but the user
interface changes. -/
theorem C9_finished_report (w : Widget) (exitCode : Int) (st : ExitStatus) :
    ((onProcFinished w exitCode st).ui.calls =
        w.ui.calls ++ [Call.setProgress 100 (lit "完了"), Call.logOk (lit "処理が正常終了しました。")] ↔
      (st = ExitStatus.NormalExit ∧ exitCode = 0)) ∧
    ((onProcFinished w exitCode st).ui.calls =
        w.ui.calls ++ [Call.logErr (lit "処理が異常終了しました。exit=" ++ number exitCode)] ↔
      ¬ (st = ExitStatus.NormalExit ∧ exitCode = 0)) ∧
    ((onProcFinished w exitCode st).ui.textBrowser =
        w.ui.textBrowser ++ [lit "❌ 処理が異常終了しました。exit=" ++ number exitCode] ↔
      ¬ (st = ExitStatus.NormalExit ∧ exitCode = 0)) ∧
    (-2147483648 ≤ exitCode → exitCode ≤ 2147483647 → toInt (number exitCode) = some exitCode) ∧
    ((onProcFinished w exitCode st).ui.textBrowser_2 =
        w.ui.textBrowser_2 ++ [lit "✅ 処理が正常終了しました。"] ↔
      (st = ExitStatus.NormalExit ∧ exitCode = 0)) ∧
    ((st = ExitStatus.NormalExit ∧ exitCode = 0) →
      onProcFinished w exitCode st =
        { w with ui :=
            { progressBar := 100
              label_5 := lit "進捗: 100%  完了"
              textBrowser := w.ui.textBrowser
              textBrowser_2 := w.ui.textBrowser_2 ++ [lit "✅ 処理が正常終了しました。"]
              calls := w.ui.calls ++
                [Call.setProgress 100 (lit "完了"), Call.logOk (lit "処理が正常終了しました。")] } }) ∧
    (¬ (st = ExitStatus.NormalExit ∧ exitCode = 0) →
      onProcFinished w exitCode st =
        { w with ui :=
            { progressBar := w.ui.progressBar
              label_5 := w.ui.label_5
              textBrowser := w.ui.textBrowser ++
                [lit "❌ 処理が異常終了しました。exit=" ++ number exitCode]
              textBrowser_2 := w.ui.textBrowser_2
              calls := w.ui.calls ++
                [Call.logErr (lit "処理が異常終了しました。exit=" ++ number exitCode)] } }) := by
  have hlabel : lit "進捗: " ++ (number 100 ++ (lit "%  " ++ lit "完了")) =
      lit "進捗: 100%  完了" := by
    decide
  have hbar : qBound 0 100 100 = 100 := by decide
  have hok : lit "✅ " ++ lit "処理が正常終了しました。" = lit "✅ 処理が正常終了しました。" := by decide
  have herr : ∀ r : QString, lit "❌ " ++ (lit "処理が異常終了しました。exit=" ++ r) =
      lit "❌ 処理が異常終了しました。exit=" ++ r := by
    intro r; simp [lit]
  have hmsg : (!(lit "完了").isEmpty) = true := by decide
  have hsucc : (st = ExitStatus.NormalExit ∧ exitCode = 0) →
      onProcFinished w exitCode st =
        { w with ui :=
            { progressBar := 100
              label_5 := lit "進捗: 100%  完了"
              textBrowser := w.ui.textBrowser
              textBrowser_2 := w.ui.textBrowser_2 ++ [lit "✅ 処理が正常終了しました。"]
              calls := w.ui.calls ++
                [Call.setProgress 100 (lit "完了"), Call.logOk (lit "処理が正常終了しました。")] } } := by
    intro h
    unfold onProcFinished
    rw [if_pos h]
    simp only [logOk, setProgress, hmsg, if_true, hlabel, hbar, hok, List.append_assoc,
      List.singleton_append]
  have hfail : ¬ (st = ExitStatus.NormalExit ∧ exitCode = 0) →
      onProcFinished w exitCode st =
        { w with ui :=
            { progressBar := w.ui.progressBar
              label_5 := w.ui.label_5
              textBrowser := w.ui.textBrowser ++
                [lit "❌ 処理が異常終了しました。exit=" ++ number exitCode]
              textBrowser_2 := w.ui.textBrowser_2
              calls := w.ui.calls ++
                [Call.logErr (lit "処理が異常終了しました。exit=" ++ number exitCode)] } } := by
    intro h
    unfold onProcFinished
    rw [if_neg h]
    simp only [logErr, herr]
  refine ⟨?_, ?_, ?_, toInt_number exitCode, ?_, hsucc, hfail⟩
  · by_cases h : st = ExitStatus.NormalExit ∧ exitCode = 0
    · rw [hsucc h]; simp [h]
    · rw [hfail h]; simp [h]
  · by_cases h : st = ExitStatus.NormalExit ∧ exitCode = 0
    · rw [hsucc h]; simp [h]
    · rw [hfail h]; simp [h]
  · by_cases h : st = ExitStatus.NormalExit ∧ exitCode = 0
    · rw [hsucc h]; simp [h]
    · rw [hfail h]; simp [h]
  · by_cases h : st = ExitStatus.NormalExit ∧ exitCode = 0
    · rw [hsucc h]; simp [h]
    · rw [hfail h]; simp [h]

/-- C9 at a normal exit with code 0, at a crash with exit code 0 and at exit
code 3. -/
theorem C9_finished_report_witness :
    ((onProcFinished oneJob 0 ExitStatus.NormalExit).ui.progressBar = 100 ∧
        (onProcFinished oneJob 0 ExitStatus.NormalExit).ui.label_5 = lit "進捗: 100%  完了" ∧
        (onProcFinished oneJob 0 ExitStatus.NormalExit).ui.textBrowser_2 =
          oneJob.ui.textBrowser_2 ++ [lit "✅ 処理が正常終了しました。"] ∧
        (onProcFinished oneJob 0 ExitStatus.NormalExit).ui.textBrowser = oneJob.ui.textBrowser) ∧
      ((onProcFinished oneJob 0 ExitStatus.CrashExit).ui.textBrowser =
          oneJob.ui.textBrowser ++ [lit "❌ 処理が異常終了しました。exit=0"] ∧
        (onProcFinished oneJob 0 ExitStatus.CrashExit).ui.progressBar = oneJob.ui.progressBar ∧
        (onProcFinished oneJob 0 ExitStatus.CrashExit).ui.textBrowser_2 =
          oneJob.ui.textBrowser_2) ∧
      toInt (number 3) = some 3 := by
  have hs := (C9_finished_report oneJob 0 ExitStatus.NormalExit).2.2.2.2.2.1 ⟨rfl, rfl⟩
  have hf := (C9_finished_report oneJob 0 ExitStatus.CrashExit).2.2.2.2.2.2 (by decide)
  have hr := (C9_finished_report oneJob 3 ExitStatus.NormalExit).2.2.2.1 (by decide) (by decide)
  refine ⟨?_, ?_, hr⟩
  · rw [hs]
    exact ⟨rfl, rfl, rfl, rfl⟩
  · rw [hf]
    exact ⟨rfl, rfl, rfl⟩

/-! ## C10 -/

theorem foldl_logErr (lines : List QString) : ∀ ui : Ui,
    lines.foldl logErr ui =
      { ui with textBrowser := ui.textBrowser ++ lines.map (fun l => lit "❌ " ++ l)
                calls := ui.calls ++ lines.map Call.logErr } := by
  induction lines with
  | nil => intro ui; simp
  | cons l ls ih =>
    intro ui
    rw [List.foldl_cons, ih]
    simp [logErr]

/-- Every text is its fragments joined by the separator. -/
theorem joinWith_splitKeep (sep : Char) (s : QString) :
    joinWith sep (splitKeep sep s) = s ∧ ∀ l ∈ splitKeep sep s, sep ∉ l := by
  induction s with
  | nil => simp [splitKeep, joinWith]
  | cons c cs ih =>
    obtain ⟨ih1, ih2⟩ := ih
    cases hs : splitKeep sep cs with
    | nil => exact absurd hs (splitKeep_ne_nil sep cs)
    | cons q qs =>
      rw [hs] at ih1 ih2
      by_cases hc : c = sep
      · subst hc
        rw [splitKeep_cons_sep, hs]
        constructor
        · rw [joinWith, ih1]; rfl
        · intro l hl
          rcases List.mem_cons.1 hl with h | h
          · subst h; simp
          · exact ih2 l h
      · rw [splitKeep_cons_ne _ _ _ hc, hs]
        simp only [List.headD_cons, List.tail_cons]
        constructor
        · cases qs with
          | nil => simpa [joinWith] using ih1
          | cons q2 qs2 =>
            rw [joinWith] at ih1 ⊢
            rw [List.cons_append, ih1]
        · intro l hl
          rcases List.mem_cons.1 hl with h | h
          · subst h
            have := ih2 q (by simp)
            simp only [List.mem_cons, not_or]
            exact ⟨fun e => hc e.symm, this⟩
          · exact ih2 l (List.mem_cons_of_mem _ h)

/-- C10: `onProcReadyStderr`, reading a text that is the lines `lines` joined
by the line terminator, appends every non-empty line, in order and with its
full text, to the error pane by `logErr`, makes no other call, and leaves the
progress bar, the status text and the information pane unchanged, whatever the
lines contain. -/
theorem C10_stderr_lines (w : Widget) (pid : Nat) (pr : QProcess) (lines : List QString)
    (hproc : w.m_proc = some pid) (hheap : w.heap[pid]? = some pr)
    (hlines : ∀ l ∈ lines, '\n' ∉ l)
    (hdata : pr.stderrData = joinWith '\n' lines) :
    ∃ w1, onProcReadyStderr w = some w1 ∧
      w1.ui.calls = w.ui.calls ++ (lines.filter (fun l => !l.isEmpty)).map Call.logErr ∧
      w1.ui.textBrowser =
        w.ui.textBrowser ++ (lines.filter (fun l => !l.isEmpty)).map (fun l => lit "❌ " ++ l) ∧
      w1.ui.progressBar = w.ui.progressBar ∧
      w1.ui.label_5 = w.ui.label_5 ∧
      w1.ui.textBrowser_2 = w.ui.textBrowser_2 := by
  have hui : stderrText w.ui pr.stderrData =
      { w.ui with
        textBrowser := w.ui.textBrowser ++
          (lines.filter (fun l => !l.isEmpty)).map (fun l => lit "❌ " ++ l)
        calls := w.ui.calls ++ (lines.filter (fun l => !l.isEmpty)).map Call.logErr } := by
    rw [hdata]
    simp only [stderrText, split]
    rw [split_skip_joinWith '\n' lines hlines, foldl_logErr]
  refine ⟨_, onProcReadyStderr_eq w pid pr hproc hheap, ?_, ?_, ?_, ?_, ?_⟩
  · show (stderrText w.ui pr.stderrData).calls = _
    rw [hui]
  · show (stderrText w.ui pr.stderrData).textBrowser = _
    rw [hui]
  · show (stderrText w.ui pr.stderrData).progressBar = _
    rw [hui]
  · show (stderrText w.ui pr.stderrData).label_5 = _
    rw [hui]
  · show (stderrText w.ui pr.stderrData).textBrowser_2 = _
    rw [hui]

/-- C10 at a stderr text whose first line has the form of a progress line. -/
theorem C10_stderr_lines_witness :
    ∃ w1, onProcReadyStderr (produce oneJob 0 [] (lit "PROGRESS 50 x\n\noops\n")) = some w1 ∧
      w1.ui.calls = oneJob.ui.calls ++
        [Call.logErr (lit "PROGRESS 50 x"), Call.logErr (lit "oops")] ∧
      w1.ui.progressBar = oneJob.ui.progressBar ∧
      w1.ui.label_5 = oneJob.ui.label_5 := by
  obtain ⟨w1, h1, h2, _, h4, h5, _⟩ := C10_stderr_lines
    (produce oneJob 0 [] (lit "PROGRESS 50 x\n\noops\n")) 0
    ((produce oneJob 0 [] (lit "PROGRESS 50 x\n\noops\n")).heap.head (by decide))
    [lit "PROGRESS 50 x", [], lit "oops", []]
    (by decide) (by decide) (by decide) (by decide)
  exact ⟨w1, h1, h2, h4, h5⟩

/-! ## C6 -/

/-- C6 as stated fails: with a folder chosen, `python3` and the script present
and a spreadsheet path that does not exist on disk, `onRenameClicked` makes no
failure report, creates and starts a process and stores it in `m_proc`. -/
theorem C6_missing_file_counterexample :
    (envOk true).fileExists chosenGone.m_excel = false ∧
      chosenGone.m_proc = none ∧
      (onRenameClicked (envOk true) chosenGone).m_proc = some 0 ∧
      (onRenameClicked (envOk true) chosenGone).heap.map QProcess.live = [true] ∧
      (onRenameClicked (envOk true) chosenGone).ui.textBrowser = chosenGone.ui.textBrowser := by
  refine ⟨?_, ?_, ?_, ?_, ?_⟩ <;> decide

/-- C6 (amended): when the folder is empty, or the spreadsheet path is empty,
or neither `python3` nor `python` is found, `onRenameClicked` reports the
failure message of the first of these checks that fails, the three messages
being different, makes no other call except the warning box that follows the
message of the interpreter check, creates no process, and leaves `m_proc`, the
process objects, the progress bar, the status text and the information pane
unchanged. -/
theorem C6_refused_start (env : Env) (w : Widget)
    (h : w.m_folder = [] ∨ w.m_excel = [] ∨
      (env.findExecutable (lit "python3") = [] ∧ env.findExecutable (lit "python") = [])) :
    (onRenameClicked env w).m_proc = w.m_proc ∧
      (onRenameClicked env w).heap = w.heap ∧
      (onRenameClicked env w).ui.progressBar = w.ui.progressBar ∧
      (onRenameClicked env w).ui.label_5 = w.ui.label_5 ∧
      (onRenameClicked env w).ui.textBrowser_2 = w.ui.textBrowser_2 ∧
      (onRenameClicked env w).ui.textBrowser = w.ui.textBrowser ++
        [lit "❌ " ++ (if w.m_folder = [] then msgNoFolder
                        else if w.m_excel = [] then msgNoExcel else msgNoPython)] ∧
      (∃ boxes, (∀ c ∈ boxes, ∃ text, c = Call.warning text) ∧
        (onRenameClicked env w).ui.calls = w.ui.calls ++
          Call.logErr (if w.m_folder = [] then msgNoFolder
                       else if w.m_excel = [] then msgNoExcel else msgNoPython) :: boxes) ∧
      msgNoFolder ≠ msgNoExcel ∧ msgNoFolder ≠ msgNoPython ∧ msgNoExcel ≠ msgNoPython := by
  have hmsgs : msgNoFolder ≠ msgNoExcel ∧ msgNoFolder ≠ msgNoPython ∧ msgNoExcel ≠ msgNoPython := by
    refine ⟨?_, ?_, ?_⟩ <;> decide
  by_cases hf : w.m_folder = []
  · have heq : onRenameClicked env w = { w with ui := logErr w.ui msgNoFolder } := by
      simp [onRenameClicked, hf]
    rw [heq, if_pos hf]
    exact ⟨rfl, rfl, rfl, rfl, rfl, rfl, ⟨[], by simp, rfl⟩, hmsgs⟩
  · have hf1 : w.m_folder.isEmpty = false := by
      cases hm : w.m_folder with
      | nil => exact absurd hm hf
      | cons c cs => rfl
    by_cases he : w.m_excel = []
    · have heq : onRenameClicked env w = { w with ui := logErr w.ui msgNoExcel } := by
        simp [onRenameClicked, hf1, he]
      rw [heq, if_neg hf, if_pos he]
      exact ⟨rfl, rfl, rfl, rfl, rfl, rfl, ⟨[], by simp, rfl⟩, hmsgs⟩
    · have he1 : w.m_excel.isEmpty = false := by
        cases hm : w.m_excel with
        | nil => exact absurd hm he
        | cons c cs => rfl
      have hpy : env.findExecutable (lit "python3") = [] ∧
          env.findExecutable (lit "python") = [] := by
        rcases h with h | h | h
        · exact absurd h hf
        · exact absurd h he
        · exact h
      have hexe : pythonExecutable env = [] := by
        simp [pythonExecutable, hpy.1, hpy.2]
      have heq : onRenameClicked env w =
          { w with ui := warning (logErr w.ui msgNoPython) boxNoPython } := by
        simp [onRenameClicked, hf1, he1, hexe]
      rw [heq, if_neg hf, if_neg he]
      refine ⟨rfl, rfl, rfl, rfl, rfl, rfl, ⟨[Call.warning boxNoPython], by simp, ?_⟩, hmsgs⟩
      simp [warning, logErr]

/-- C6 (amended) at a click while a job runs and no interpreter is found. -/
theorem C6_refused_start_witness :
    (onRenameClicked { envOk true with findExecutable := fun _ => [] } oneJob).m_proc = some 0 ∧
      (onRenameClicked { envOk true with findExecutable := fun _ => [] } oneJob).heap =
        oneJob.heap :=
  ⟨(C6_refused_start { envOk true with findExecutable := fun _ => [] } oneJob
      (Or.inr (Or.inr ⟨rfl, rfl⟩))).1,
    (C6_refused_start { envOk true with findExecutable := fun _ => [] } oneJob
      (Or.inr (Or.inr ⟨rfl, rfl⟩))).2.1⟩

/-! ## Lemmas on the process objects -/

theorem modifyProc_length (heap : List QProcess) (k : Nat) (f : QProcess → QProcess) :
    (modifyProc heap k f).length = heap.length := by
  unfold modifyProc
  cases heap[k]? <;> simp

theorem modifyProc_getElem? (heap : List QProcess) (k i : Nat) (f : QProcess → QProcess) :
    (modifyProc heap k f)[i]? = if k = i then (heap[i]?).map f else heap[i]? := by
  unfold modifyProc
  cases hk : heap[k]? with
  | none =>
    by_cases hki : k = i
    · subst hki; simp [hk]
    · simp [hki]
  | some pr =>
    have hlt : k < heap.length := (List.getElem?_eq_some.1 hk).1
    simp only [List.getElem?_set]
    by_cases hki : k = i
    · subst hki; simp [hk, hlt]
    · simp [hki]

theorem killCurrent_length (w : Widget) : (killCurrent w).length = w.heap.length := by
  unfold killCurrent
  cases w.m_proc <;> simp [modifyProc_length]

/-- The click that gets past the checks: what it leaves in `m_proc` and `heap`. -/
theorem onRenameClicked_pass (env : Env) (w : Widget)
    (hf : w.m_folder ≠ []) (he : w.m_excel ≠ []) (hpy : pythonExecutable env ≠ [])
    (hscript : env.fileExists (pythonScriptPath env) = true) :
    (onRenameClicked env w).m_proc =
        (if env.waitForStarted then some w.heap.length else none) ∧
      (onRenameClicked env w).heap = killCurrent w ++
        [if env.waitForStarted then newProcess env w
         else { newProcess env w with deleteLater := true }] := by
  have hf1 : w.m_folder.isEmpty = false := by
    cases hm : w.m_folder with
    | nil => exact absurd hm hf
    | cons c cs => rfl
  have he1 : w.m_excel.isEmpty = false := by
    cases hm : w.m_excel with
    | nil => exact absurd hm he
    | cons c cs => rfl
  have hpy1 : (pythonExecutable env).isEmpty = false := by
    cases hm : pythonExecutable env with
    | nil => exact absurd hm hpy
    | cons c cs => rfl
  cases hs : env.waitForStarted <;>
    simp [onRenameClicked, hf1, he1, hpy1, hscript, hs, killCurrent_length]

/-- Every click either changes neither `m_proc` nor the process objects, or
kills the current process and adds one object, which is in `m_proc` when it
is live. -/
theorem onRenameClicked_cases (env : Env) (w : Widget) :
    ((onRenameClicked env w).m_proc = w.m_proc ∧ (onRenameClicked env w).heap = w.heap) ∨
      ∃ pr, (onRenameClicked env w).heap = killCurrent w ++ [pr] ∧
        (pr.live = true → (onRenameClicked env w).m_proc = some w.heap.length) := by
  by_cases hf : w.m_folder = []
  · left; simp [onRenameClicked, hf]
  by_cases he : w.m_excel = []
  · left
    cases hm : w.m_folder with
    | nil => exact absurd hm hf
    | cons c cs => simp [onRenameClicked, hm, he]
  by_cases hpy : pythonExecutable env = []
  · left
    cases hm : w.m_folder with
    | nil => exact absurd hm hf
    | cons c cs =>
      cases hm2 : w.m_excel with
      | nil => exact absurd hm2 he
      | cons c2 cs2 => simp [onRenameClicked, hm, hm2, hpy]
  cases hscript : env.fileExists (pythonScriptPath env) with
  | false =>
    left
    cases hm : w.m_folder with
    | nil => exact absurd hm hf
    | cons c cs =>
      cases hm2 : w.m_excel with
      | nil => exact absurd hm2 he
      | cons c2 cs2 =>
        cases hm3 : pythonExecutable env with
        | nil => exact absurd hm3 hpy
        | cons c3 cs3 => simp [onRenameClicked, hm, hm2, hm3, hscript]
  | true =>
    right
    obtain ⟨h1, h2⟩ := onRenameClicked_pass env w hf he hpy hscript
    refine ⟨_, h2, ?_⟩
    intro hlive
    rw [h1]
    cases hs : env.waitForStarted with
    | true => rfl
    | false =>
      rw [hs] at hlive
      simp [QProcess.live, newProcess, hs] at hlive

theorem killCurrent_not_live (w : Widget) (hinv : OnlyCurrentLive w) (i : Nat) (pr : QProcess)
    (h : (killCurrent w)[i]? = some pr) : pr.live = false := by
  unfold killCurrent at h
  cases hm : w.m_proc with
  | none =>
    rw [hm] at h
    cases hl : pr.live with
    | false => rfl
    | true =>
      have := hinv i pr h hl
      rw [hm] at this
      exact Option.noConfusion this
  | some old =>
    rw [hm] at h
    simp only at h
    rw [modifyProc_getElem?] at h
    by_cases hoi : old = i
    · rw [if_pos hoi] at h
      cases h0 : w.heap[i]? with
      | none => rw [h0] at h; exact Option.noConfusion h
      | some pr0 =>
        rw [h0] at h
        simp only [Option.map_some', Option.some.injEq] at h
        rw [← h]
        simp [QProcess.live]
    · rw [if_neg hoi] at h
      cases hl : pr.live with
      | false => rfl
      | true =>
        have := hinv i pr h hl
        rw [hm] at this
        exact absurd (Option.some.inj this) hoi

theorem onlyCurrentLive_init : OnlyCurrentLive Widget.init := by
  intro i pr h _
  simp [Widget.init] at h

theorem onlyCurrentLive_rename (env : Env) (w : Widget) (hinv : OnlyCurrentLive w) :
    OnlyCurrentLive (onRenameClicked env w) := by
  rcases onRenameClicked_cases env w with ⟨h1, h2⟩ | ⟨p, h2, h3⟩
  · intro i pr hi hl
    rw [h1]
    rw [h2] at hi
    exact hinv i pr hi hl
  · intro i pr hi hl
    rw [h2] at hi
    by_cases hlt : i < (killCurrent w).length
    · rw [List.getElem?_append_left hlt] at hi
      have := killCurrent_not_live w hinv i pr hi
      rw [this] at hl
      exact Bool.noConfusion hl
    · rw [List.getElem?_append_right (by omega)] at hi
      have hi0 : i - (killCurrent w).length = 0 := by
        by_contra hne
        have : [p][i - (killCurrent w).length]? = none := by
          apply List.getElem?_eq_none
          simp only [List.length_singleton]
          omega
        rw [this] at hi
        exact Option.noConfusion hi
      rw [hi0] at hi
      simp only [List.getElem?_cons_zero, Option.some.injEq] at hi
      have hi1 : i = w.heap.length := by
        rw [killCurrent_length] at hlt hi0
        omega
      rw [hi1, h3 (by rw [hi]; exact hl)]

/-- A step that keeps `m_proc` and the liveness of every process object keeps
the invariant. -/
theorem onlyCurrentLive_of_same (w w1 : Widget) (hm : w1.m_proc = w.m_proc)
    (hh : ∀ (i : Nat) (pr1 : QProcess), w1.heap[i]? = some pr1 →
      ∃ pr, w.heap[i]? = some pr ∧ pr.live = pr1.live)
    (hinv : OnlyCurrentLive w) : OnlyCurrentLive w1 := by
  intro i pr1 hi hl
  obtain ⟨pr, h1, h2⟩ := hh i pr1 hi
  rw [hm]
  exact hinv i pr h1 (by rw [h2]; exact hl)

theorem modifyProc_same_live (heap : List QProcess) (k : Nat) (f : QProcess → QProcess)
    (hf : ∀ pr, (f pr).live = pr.live) (i : Nat) (pr1 : QProcess)
    (h : (modifyProc heap k f)[i]? = some pr1) :
    ∃ pr, heap[i]? = some pr ∧ pr.live = pr1.live := by
  rw [modifyProc_getElem?] at h
  by_cases hki : k = i
  · rw [if_pos hki] at h
    cases h0 : heap[i]? with
    | none => rw [h0] at h; exact Option.noConfusion h
    | some pr0 =>
      rw [h0] at h
      simp only [Option.map_some', Option.some.injEq] at h
      exact ⟨pr0, rfl, by rw [← h, hf]⟩
  · rw [if_neg hki] at h
    exact ⟨pr1, h, rfl⟩

theorem set_same_live (heap : List QProcess) (k : Nat) (pr0 x : QProcess)
    (hk : heap[k]? = some pr0) (hx : x.live = pr0.live) (i : Nat) (pr1 : QProcess)
    (h : (heap.set k x)[i]? = some pr1) :
    ∃ pr, heap[i]? = some pr ∧ pr.live = pr1.live := by
  rw [List.getElem?_set] at h
  by_cases hki : k = i
  · subst hki
    have hlt : k < heap.length := (List.getElem?_eq_some.1 hk).1
    simp only [if_true, hlt, Option.some.injEq] at h
    exact ⟨pr0, hk, by rw [← h, hx]⟩
  · rw [if_neg hki] at h
    exact ⟨pr1, h, rfl⟩

theorem onlyCurrentLive_stdout (w w1 : Widget) (h : onProcReadyStdout w = some w1)
    (hinv : OnlyCurrentLive w) : OnlyCurrentLive w1 := by
  unfold onProcReadyStdout at h
  cases hm : w.m_proc with
  | none => rw [hm] at h; exact Option.noConfusion h
  | some pid =>
    rw [hm] at h
    simp only at h
    cases hp : w.heap[pid]? with
    | none => rw [hp] at h; exact Option.noConfusion h
    | some pr =>
      rw [hp] at h
      simp only [Option.some.injEq] at h
      subst h
      exact onlyCurrentLive_of_same w _ hm.symm (set_same_live w.heap pid pr _ hp rfl) hinv

theorem onlyCurrentLive_stderr (w w1 : Widget) (h : onProcReadyStderr w = some w1)
    (hinv : OnlyCurrentLive w) : OnlyCurrentLive w1 := by
  unfold onProcReadyStderr at h
  cases hm : w.m_proc with
  | none => rw [hm] at h; exact Option.noConfusion h
  | some pid =>
    rw [hm] at h
    simp only at h
    cases hp : w.heap[pid]? with
    | none => rw [hp] at h; exact Option.noConfusion h
    | some pr =>
      rw [hp] at h
      simp only [Option.some.injEq] at h
      subst h
      exact onlyCurrentLive_of_same w _ hm.symm (set_same_live w.heap pid pr _ hp rfl) hinv

theorem onlyCurrentLive_deliver (w w1 : Widget) (sig : Signal) (h : deliver w sig = some w1)
    (hinv : OnlyCurrentLive w) : OnlyCurrentLive w1 := by
  unfold deliver at h
  cases hs : w.heap[sig.sender]? with
  | none =>
    rw [hs] at h
    simp only [Option.some.injEq] at h
    subst h; exact hinv
  | some pr =>
    rw [hs] at h
    simp only at h
    cases hc : pr.connected with
    | false =>
      rw [hc] at h
      simp only [Bool.false_eq_true, if_false, Option.some.injEq] at h
      subst h; exact hinv
    | true =>
      rw [hc] at h
      simp only [if_true] at h
      cases sig with
      | readyReadStandardOutput s => exact onlyCurrentLive_stdout w w1 h hinv
      | readyReadStandardError s => exact onlyCurrentLive_stderr w w1 h hinv
      | finished s c st =>
        simp only [Option.some.injEq] at h
        subst h
        unfold onProcFinished
        split
        · exact onlyCurrentLive_of_same w _ rfl (fun i pr1 hi => ⟨pr1, hi, rfl⟩) hinv
        · exact onlyCurrentLive_of_same w _ rfl (fun i pr1 hi => ⟨pr1, hi, rfl⟩) hinv

theorem onlyCurrentLive_step (w w1 : Widget) (op : Op) (h : step w op = some w1)
    (hinv : OnlyCurrentLive w) : OnlyCurrentLive w1 := by
  cases op with
  | chooseFolder dir =>
    simp only [step, Option.some.injEq] at h
    subst h
    unfold onChooseFolder
    split
    · exact onlyCurrentLive_of_same w _ rfl (fun i pr1 hi => ⟨pr1, hi, rfl⟩) hinv
    · exact hinv
  | chooseExcel file =>
    simp only [step, Option.some.injEq] at h
    subst h
    unfold onChooseExcel
    split
    · exact onlyCurrentLive_of_same w _ rfl (fun i pr1 hi => ⟨pr1, hi, rfl⟩) hinv
    · exact hinv
  | renameClicked env =>
    simp only [step, Option.some.injEq] at h
    subst h
    exact onlyCurrentLive_rename env w hinv
  | output pid out err =>
    simp only [step, Option.some.injEq] at h
    subst h
    exact onlyCurrentLive_of_same w _ rfl
      (modifyProc_same_live w.heap pid _ (fun pr => rfl)) hinv
  | signal sig => exact onlyCurrentLive_deliver w w1 sig h hinv

theorem onlyCurrentLive_run (ops : List Op) : ∀ (w w1 : Widget), run w ops = some w1 →
    OnlyCurrentLive w → OnlyCurrentLive w1 := by
  induction ops with
  | nil =>
    intro w w1 h hinv
    simp only [run, Option.some.injEq] at h
    subst h; exact hinv
  | cons op rest ih =>
    intro w w1 h hinv
    rw [run] at h
    cases hs : step w op with
    | none => rw [hs] at h; exact Option.noConfusion h
    | some w2 =>
      rw [hs] at h
      exact ih w2 w1 h (onlyCurrentLive_step w w2 op hs hinv)

/-- A list in which any two elements satisfying `p` sit at the same index has
at most one element satisfying `p`. -/
theorem filter_length_le_one (p : QProcess → Bool) : ∀ l : List QProcess,
    (∀ (i j : Nat) (a b : QProcess), l[i]? = some a → l[j]? = some b → p a = true →
      p b = true → i = j) →
    (l.filter p).length ≤ 1 := by
  intro l
  induction l with
  | nil => intro _; simp
  | cons x xs ih =>
    intro h
    have hxs : ∀ (i j : Nat) (a b : QProcess), xs[i]? = some a → xs[j]? = some b →
        p a = true → p b = true → i = j := by
      intro i j a b hi hj ha hb
      have := h (i + 1) (j + 1) a b (by simpa using hi) (by simpa using hj) ha hb
      omega
    cases hx : p x with
    | false =>
      rw [List.filter_cons_of_neg (by simp [hx])]
      exact ih hxs
    | true =>
      have hnone : xs.filter p = [] := by
        rw [List.filter_eq_nil_iff]
        intro b hb hpb
        obtain ⟨j, hj⟩ := List.getElem?_of_mem hb
        have := h 0 (j + 1) x b (by simp) (by simpa using hj) hx hpb
        omega
      rw [List.filter_cons_of_pos hx, hnone]
      simp

/-! ## C8 -/

/-- C8: in every state reached from the constructed widget by choosing folder
and spreadsheet, clicks on the rename button (refused, failing to start or
successful), output of the children and notifications of the process objects,
every process that has been started and not killed is the one in `m_proc`, so
at most one such process exists; the destructor leaves none; and whenever a
click creates a process object, every object created before it has been
killed or was never started. -/
theorem C8_at_most_one_live (ops : List Op) (w : Widget)
    (hrun : run Widget.init ops = some w) :
    (∀ (i : Nat) (pr : QProcess), w.heap[i]? = some pr → pr.live = true → w.m_proc = some i) ∧
      (w.heap.filter QProcess.live).length ≤ 1 ∧
      (∀ pr ∈ (destructor w).heap, pr.live = false) ∧
      (∀ (env : Env) (i : Nat) (pr : QProcess),
        (onRenameClicked env w).heap.length = w.heap.length + 1 → i < w.heap.length →
        (onRenameClicked env w).heap[i]? = some pr → pr.live = false) := by
  have hinv : OnlyCurrentLive w := onlyCurrentLive_run ops _ w hrun onlyCurrentLive_init
  refine ⟨hinv, ?_, ?_, ?_⟩
  · apply filter_length_le_one
    intro i j a b hi hj ha hb
    have h1 := hinv i a hi ha
    have h2 := hinv j b hj hb
    rw [h1] at h2
    exact Option.some.inj h2
  · intro pr hpr
    obtain ⟨j, hj⟩ := List.getElem?_of_mem hpr
    exact killCurrent_not_live w hinv j pr hj
  · intro env i pr hlen hi hget
    rcases onRenameClicked_cases env w with ⟨_, h2⟩ | ⟨p, h2, _⟩
    · rw [h2] at hlen; omega
    · rw [h2, List.getElem?_append_left (by rw [killCurrent_length]; exact hi)] at hget
      exact killCurrent_not_live w hinv i pr hget

/-- C8 at a run with two clicks: two process objects, at most one live. -/
theorem C8_at_most_one_live_witness :
    ∃ w, run Widget.init demoOps = some w ∧ w.heap.length = 2 ∧
      (w.heap.filter QProcess.live).length ≤ 1 :=
  ⟨(run Widget.init demoOps).get (by decide), (Option.some_get _).symm, by decide,
    (C8_at_most_one_live demoOps _ (Option.some_get _).symm).2.1⟩

/-! ## C7 -/

/-- C7 as stated fails: after the second click has superseded the first job,
a finished notification of the first process object is not dropped; it is
reported in the error pane while the second job runs. -/
theorem C7_late_finished_counterexample :
    twoJobs.m_proc = some 1 ∧
      twoJobs.heap.map (fun pr => (pr.killed, pr.connected)) = [(true, true), (false, true)] ∧
      (deliver twoJobs (Signal.finished 0 9 ExitStatus.CrashExit)).map (fun w1 => w1.ui.calls) =
        some (twoJobs.ui.calls ++ [Call.logErr (lit "処理が異常終了しました。exit=9")]) ∧
      deliver twoJobs (Signal.finished 0 9 ExitStatus.CrashExit) ≠ some twoJobs := by
  refine ⟨?_, ?_, ?_, ?_⟩ <;> decide

/-- What a click that gets past the checks does to a widget with a process in
`m_proc`, whether or not the new process starts. -/
theorem supersede_general (env : Env) (w w2 w3 : Widget) (old : Nat) (prOld : QProcess)
    (oldOut oldErr newOut newErr : QString)
    (hproc : w.m_proc = some old) (hheap : w.heap[old]? = some prOld)
    (hconn : prOld.connected = true)
    (hf : w.m_folder ≠ []) (he : w.m_excel ≠ []) (hpy : pythonExecutable env ≠ [])
    (hscript : env.fileExists (pythonScriptPath env) = true)
    (hw2 : w2 = onRenameClicked env w)
    (hw3 : w3 = produce (produce w2 old oldOut oldErr) w.heap.length newOut newErr) :
    (∃ pr, w2.heap[old]? = some pr ∧ pr.killed = true) ∧ old ≠ w.heap.length ∧
      w2.m_proc = (if env.waitForStarted then some w.heap.length else none) ∧
      (env.waitForStarted = true → ∀ sender, sender = old ∨ sender = w.heap.length →
        (deliver w3 (Signal.readyReadStandardOutput sender)).map (fun w4 => w4.ui) =
            some (stdoutText w2.ui newOut) ∧
          (deliver w3 (Signal.readyReadStandardError sender)).map (fun w4 => w4.ui) =
            some (stderrText w2.ui newErr)) ∧
      (∀ exitCode st, deliver w3 (Signal.finished old exitCode st) =
        some (onProcFinished w3 exitCode st)) := by
  obtain ⟨hm2, hh2⟩ := onRenameClicked_pass env w hf he hpy hscript
  rw [← hw2] at hm2 hh2
  have hlt : old < w.heap.length := (List.getElem?_eq_some.1 hheap).1
  have hne : old ≠ w.heap.length := by omega
  have hkill : killCurrent w =
      modifyProc w.heap old (fun pr => { pr with killed := true, deleteLater := true }) := by
    simp [killCurrent, hproc]
  have hold2 : w2.heap[old]? =
      some { prOld with killed := true, deleteLater := true } := by
    rw [hh2, List.getElem?_append_left (by rw [killCurrent_length]; exact hlt), hkill,
      modifyProc_getElem?, if_pos rfl, hheap]
    rfl
  have hui3 : w3.ui = w2.ui := by rw [hw3]; rfl
  have hold3 : ∃ pr, w3.heap[old]? = some pr ∧ pr.connected = true := by
    rw [hw3]
    simp only [produce]
    rw [modifyProc_getElem?, if_neg (Ne.symm hne), modifyProc_getElem?, if_pos rfl, hold2]
    exact ⟨_, rfl, hconn⟩
  refine ⟨⟨_, hold2, rfl⟩, hne, hm2, ?_, ?_⟩
  · intro hstart sender hs
    rw [hstart] at hm2 hh2
    simp only [if_true] at hm2 hh2
    have hnew2 : w2.heap[w.heap.length]? = some (newProcess env w) := by
      rw [hh2]
      have := List.getElem?_concat_length (killCurrent w) (newProcess env w)
      rw [killCurrent_length] at this
      exact this
    have hm3 : w3.m_proc = some w.heap.length := by rw [hw3]; exact hm2
    have hnew3 : w3.heap[w.heap.length]? =
        some { newProcess env w with stdoutData := (newProcess env w).stdoutData ++ newOut,
                                     stderrData := (newProcess env w).stderrData ++ newErr } := by
      rw [hw3]
      simp only [produce]
      rw [modifyProc_getElem?, if_pos rfl, modifyProc_getElem?, if_neg hne, hnew2]
      rfl
    have hsender : ∃ pr, w3.heap[sender]? = some pr ∧ pr.connected = true := by
      rcases hs with hs | hs
      · rw [hs]; exact hold3
      · rw [hs]; exact ⟨_, hnew3, rfl⟩
    obtain ⟨pr, hp1, hp2⟩ := hsender
    constructor
    · simp only [deliver, Signal.sender, hp1, hp2, if_true]
      rw [onProcReadyStdout_eq w3 _ _ hm3 hnew3]
      simp [hui3, newProcess]
    · simp only [deliver, Signal.sender, hp1, hp2, if_true]
      rw [onProcReadyStderr_eq w3 _ _ hm3 hnew3]
      simp [hui3, newProcess]
  · intro exitCode st
    obtain ⟨pr, hp1, hp2⟩ := hold3
    simp only [deliver, Signal.sender, hp1, hp2, if_true]

/-! ### Reachable widgets are well formed -/

theorem wellFormed_init : WellFormed Widget.init := by
  constructor
  · intro i pr h
    simp [Widget.init] at h
  · intro i h
    simp [Widget.init] at h

/-- A step that keeps `m_proc`, the number of process objects and the
connections of every process object keeps the widget well formed. -/
theorem wellFormed_of_same (w w1 : Widget) (hm : w1.m_proc = w.m_proc)
    (hl : w1.heap.length = w.heap.length)
    (hh : ∀ (i : Nat) (pr1 : QProcess), w1.heap[i]? = some pr1 →
      ∃ pr, w.heap[i]? = some pr ∧ pr.connected = pr1.connected)
    (hwf : WellFormed w) : WellFormed w1 := by
  constructor
  · intro i pr1 hi
    obtain ⟨pr, h1, h2⟩ := hh i pr1 hi
    rw [← h2]
    exact hwf.1 i pr h1
  · intro i hi
    rw [hl]
    exact hwf.2 i (by rw [← hm]; exact hi)

theorem modifyProc_same_connected (heap : List QProcess) (k : Nat) (f : QProcess → QProcess)
    (hf : ∀ pr, (f pr).connected = pr.connected) (i : Nat) (pr1 : QProcess)
    (h : (modifyProc heap k f)[i]? = some pr1) :
    ∃ pr, heap[i]? = some pr ∧ pr.connected = pr1.connected := by
  rw [modifyProc_getElem?] at h
  by_cases hki : k = i
  · rw [if_pos hki] at h
    cases h0 : heap[i]? with
    | none => rw [h0] at h; exact Option.noConfusion h
    | some pr0 =>
      rw [h0] at h
      simp only [Option.map_some', Option.some.injEq] at h
      exact ⟨pr0, rfl, by rw [← h, hf]⟩
  · rw [if_neg hki] at h
    exact ⟨pr1, h, rfl⟩

theorem set_same_connected (heap : List QProcess) (k : Nat) (pr0 x : QProcess)
    (hk : heap[k]? = some pr0) (hx : x.connected = pr0.connected) (i : Nat) (pr1 : QProcess)
    (h : (heap.set k x)[i]? = some pr1) :
    ∃ pr, heap[i]? = some pr ∧ pr.connected = pr1.connected := by
  rw [List.getElem?_set] at h
  by_cases hki : k = i
  · subst hki
    have hlt : k < heap.length := (List.getElem?_eq_some.1 hk).1
    simp only [if_true, hlt, Option.some.injEq] at h
    exact ⟨pr0, hk, by rw [← h, hx]⟩
  · rw [if_neg hki] at h
    exact ⟨pr1, h, rfl⟩

theorem killCurrent_connected (w : Widget) (hwf : WellFormed w) (i : Nat) (pr : QProcess)
    (h : (killCurrent w)[i]? = some pr) : pr.connected = true := by
  unfold killCurrent at h
  cases hm : w.m_proc with
  | none =>
    rw [hm] at h
    exact hwf.1 i pr h
  | some old =>
    rw [hm] at h
    simp only at h
    obtain ⟨pr0, h1, h2⟩ := modifyProc_same_connected w.heap old
      (fun pr => { pr with killed := true, deleteLater := true }) (fun _ => rfl) i pr h
    rw [← h2]
    exact hwf.1 i pr0 h1

/-- Every click either changes neither `m_proc` nor the process objects, or
does what `onRenameClicked_pass` says. -/
theorem onRenameClicked_cases_pass (env : Env) (w : Widget) :
    ((onRenameClicked env w).m_proc = w.m_proc ∧ (onRenameClicked env w).heap = w.heap) ∨
      ((onRenameClicked env w).m_proc =
          (if env.waitForStarted then some w.heap.length else none) ∧
        (onRenameClicked env w).heap = killCurrent w ++
          [if env.waitForStarted then newProcess env w
           else { newProcess env w with deleteLater := true }]) := by
  by_cases hf : w.m_folder = []
  · left; simp [onRenameClicked, hf]
  by_cases he : w.m_excel = []
  · left
    cases hm : w.m_folder with
    | nil => exact absurd hm hf
    | cons c cs => simp [onRenameClicked, hm, he]
  by_cases hpy : pythonExecutable env = []
  · left
    cases hm : w.m_folder with
    | nil => exact absurd hm hf
    | cons c cs =>
      cases hm2 : w.m_excel with
      | nil => exact absurd hm2 he
      | cons c2 cs2 => simp [onRenameClicked, hm, hm2, hpy]
  cases hscript : env.fileExists (pythonScriptPath env) with
  | false =>
    left
    cases hm : w.m_folder with
    | nil => exact absurd hm hf
    | cons c cs =>
      cases hm2 : w.m_excel with
      | nil => exact absurd hm2 he
      | cons c2 cs2 =>
        cases hm3 : pythonExecutable env with
        | nil => exact absurd hm3 hpy
        | cons c3 cs3 => simp [onRenameClicked, hm, hm2, hm3, hscript]
  | true =>
    right
    exact onRenameClicked_pass env w hf he hpy hscript

theorem wellFormed_rename (env : Env) (w : Widget) (hwf : WellFormed w) :
    WellFormed (onRenameClicked env w) := by
  rcases onRenameClicked_cases_pass env w with ⟨h1, h2⟩ | ⟨h1, h2⟩
  · exact wellFormed_of_same w _ h1 (by rw [h2]) (fun i pr1 hi => ⟨pr1, by rw [← h2]; exact hi, rfl⟩)
      hwf
  · constructor
    · intro i pr hi
      rw [h2] at hi
      by_cases hlt : i < (killCurrent w).length
      · rw [List.getElem?_append_left hlt] at hi
        exact killCurrent_connected w hwf i pr hi
      · rw [List.getElem?_append_right (by omega)] at hi
        have hmem := List.getElem?_mem hi
        simp only [List.mem_singleton] at hmem
        rw [hmem]
        cases env.waitForStarted <;> rfl
    · intro i hi
      rw [h1] at hi
      rw [h2, List.length_append, killCurrent_length, List.length_singleton]
      cases hs : env.waitForStarted with
      | true =>
        rw [hs] at hi
        simp only [if_true, Option.some.injEq] at hi
        omega
      | false =>
        rw [hs] at hi
        simp at hi

theorem wellFormed_stdout (w w1 : Widget) (h : onProcReadyStdout w = some w1)
    (hwf : WellFormed w) : WellFormed w1 := by
  unfold onProcReadyStdout at h
  cases hm : w.m_proc with
  | none => rw [hm] at h; exact Option.noConfusion h
  | some pid =>
    rw [hm] at h
    simp only at h
    cases hp : w.heap[pid]? with
    | none => rw [hp] at h; exact Option.noConfusion h
    | some pr =>
      rw [hp] at h
      simp only [Option.some.injEq] at h
      subst h
      exact wellFormed_of_same w _ hm.symm (by simp)
        (set_same_connected w.heap pid pr _ hp rfl) hwf

theorem wellFormed_stderr (w w1 : Widget) (h : onProcReadyStderr w = some w1)
    (hwf : WellFormed w) : WellFormed w1 := by
  unfold onProcReadyStderr at h
  cases hm : w.m_proc with
  | none => rw [hm] at h; exact Option.noConfusion h
  | some pid =>
    rw [hm] at h
    simp only at h
    cases hp : w.heap[pid]? with
    | none => rw [hp] at h; exact Option.noConfusion h
    | some pr =>
      rw [hp] at h
      simp only [Option.some.injEq] at h
      subst h
      exact wellFormed_of_same w _ hm.symm (by simp)
        (set_same_connected w.heap pid pr _ hp rfl) hwf

theorem wellFormed_deliver (w w1 : Widget) (sig : Signal) (h : deliver w sig = some w1)
    (hwf : WellFormed w) : WellFormed w1 := by
  unfold deliver at h
  cases hs : w.heap[sig.sender]? with
  | none =>
    rw [hs] at h
    simp only [Option.some.injEq] at h
    subst h; exact hwf
  | some pr =>
    rw [hs] at h
    simp only at h
    cases hc : pr.connected with
    | false =>
      rw [hc] at h
      simp only [Bool.false_eq_true, if_false, Option.some.injEq] at h
      subst h; exact hwf
    | true =>
      rw [hc] at h
      simp only [if_true] at h
      cases sig with
      | readyReadStandardOutput s => exact wellFormed_stdout w w1 h hwf
      | readyReadStandardError s => exact wellFormed_stderr w w1 h hwf
      | finished s c st =>
        simp only [Option.some.injEq] at h
        subst h
        unfold onProcFinished
        split
        · exact wellFormed_of_same w _ rfl rfl (fun i pr1 hi => ⟨pr1, hi, rfl⟩) hwf
        · exact wellFormed_of_same w _ rfl rfl (fun i pr1 hi => ⟨pr1, hi, rfl⟩) hwf

theorem wellFormed_step (w w1 : Widget) (op : Op) (h : step w op = some w1)
    (hwf : WellFormed w) : WellFormed w1 := by
  cases op with
  | chooseFolder dir =>
    simp only [step, Option.some.injEq] at h
    subst h
    unfold onChooseFolder
    split
    · exact wellFormed_of_same w _ rfl rfl (fun i pr1 hi => ⟨pr1, hi, rfl⟩) hwf
    · exact hwf
  | chooseExcel file =>
    simp only [step, Option.some.injEq] at h
    subst h
    unfold onChooseExcel
    split
    · exact wellFormed_of_same w _ rfl rfl (fun i pr1 hi => ⟨pr1, hi, rfl⟩) hwf
    · exact hwf
  | renameClicked env =>
    simp only [step, Option.some.injEq] at h
    subst h
    exact wellFormed_rename env w hwf
  | output pid out err =>
    simp only [step, Option.some.injEq] at h
    subst h
    exact wellFormed_of_same w _ rfl (modifyProc_length _ _ _)
      (modifyProc_same_connected w.heap pid _ (fun pr => rfl)) hwf
  | signal sig => exact wellFormed_deliver w w1 sig h hwf

theorem wellFormed_run (ops : List Op) : ∀ (w w1 : Widget), run w ops = some w1 →
    WellFormed w → WellFormed w1 := by
  induction ops with
  | nil =>
    intro w w1 h hwf
    simp only [run, Option.some.injEq] at h
    subst h; exact hwf
  | cons op rest ih =>
    intro w w1 h hwf
    rw [run] at h
    cases hs : step w op with
    | none => rw [hs] at h; exact Option.noConfusion h
    | some w2 =>
      rw [hs] at h
      exact ih w2 w1 h (wellFormed_step w w2 op hs hwf)

/-- After a click that kills the running job and whose own process fails to
start, `m_proc` is null: a late ready-read notification of the killed process
makes the slot dereference it, and its finished notification is reported. -/
theorem failedRestart_notifications :
    failedRestart.m_proc = none ∧
      failedRestart.heap.map (fun pr => (pr.killed, pr.live)) = [(true, false), (false, false)] ∧
      deliver failedRestart (Signal.readyReadStandardOutput 0) = none ∧
      (deliver failedRestart (Signal.finished 0 9 ExitStatus.CrashExit)).map
          (fun w1 => w1.ui.calls) =
        some (failedRestart.ui.calls ++ [Call.logErr (lit "処理が異常終了しました。exit=9")]) := by
  refine ⟨?_, ?_, ?_, ?_⟩ <;> decide

/-- C7 (amended): in a state reached by the widget in which `m_proc` holds a
process, a click that gets past its checks kills that process; afterwards
`m_proc` holds the new process object if the new process started and is null
if it failed to start.  The slots do not look at the sender of a notification.
If the new process started, then on a ready-read notification of either
process object the stdout and stderr slots read the output of the new process
only, so whatever the old process has written is never shown.  Whether or not
the new process started, a finished notification of the old process is
reported like any other. -/
theorem C7_after_supersede (ops : List Op) (env : Env) (w w2 w3 : Widget) (old : Nat)
    (oldOut oldErr newOut newErr : QString)
    (hrun : run Widget.init ops = some w) (hproc : w.m_proc = some old)
    (hf : w.m_folder ≠ []) (he : w.m_excel ≠ []) (hpy : pythonExecutable env ≠ [])
    (hscript : env.fileExists (pythonScriptPath env) = true)
    (hw2 : w2 = onRenameClicked env w)
    (hw3 : w3 = produce (produce w2 old oldOut oldErr) w.heap.length newOut newErr) :
    (∃ pr, w2.heap[old]? = some pr ∧ pr.killed = true) ∧ old ≠ w.heap.length ∧
      w2.m_proc = (if env.waitForStarted then some w.heap.length else none) ∧
      (env.waitForStarted = true → ∀ sender, sender = old ∨ sender = w.heap.length →
        (deliver w3 (Signal.readyReadStandardOutput sender)).map (fun w4 => w4.ui) =
            some (stdoutText w2.ui newOut) ∧
          (deliver w3 (Signal.readyReadStandardError sender)).map (fun w4 => w4.ui) =
            some (stderrText w2.ui newErr)) ∧
      (∀ exitCode st, deliver w3 (Signal.finished old exitCode st) =
        some (onProcFinished w3 exitCode st)) := by
  have hwf : WellFormed w := wellFormed_run ops _ w hrun wellFormed_init
  have hlt : old < w.heap.length := hwf.2 old hproc
  obtain ⟨prOld, hheap⟩ : ∃ prOld, w.heap[old]? = some prOld :=
    ⟨w.heap[old], List.getElem?_eq_getElem hlt⟩
  exact supersede_general env w w2 w3 old prOld oldOut oldErr newOut newErr hproc hheap
    (hwf.1 old prOld hheap) hf he hpy hscript hw2 hw3

/-- C7 (amended) at a second click on the widget with one job running: when
the new process starts, text written by the first process is not shown on its
late notification; when it fails to start, `m_proc` is null and the late
finished notification of the first process is still reported. -/
theorem C7_after_supersede_witness :
    (deliver (produce (produce twoJobs 0 (lit "PROGRESS 99 old\n") []) 1 (lit "new\n") [])
        (Signal.readyReadStandardOutput 0)).map (fun w4 => w4.ui) =
      some (stdoutText twoJobs.ui (lit "new\n")) ∧
    failedRestart.m_proc = none ∧
    deliver (produce (produce failedRestart 0 [] []) 1 [] [])
        (Signal.finished 0 9 ExitStatus.CrashExit) =
      some (onProcFinished (produce (produce failedRestart 0 [] []) 1 [] []) 9
        ExitStatus.CrashExit) :=
  ⟨((C7_after_supersede oneJobOps (envOk true) oneJob twoJobs
      (produce (produce twoJobs 0 (lit "PROGRESS 99 old\n") []) 1 (lit "new\n") [])
      0 (lit "PROGRESS 99 old\n") [] (lit "new\n") []
      (by decide) (by decide) (by decide) (by decide) (by decide) (by decide)
      rfl rfl).2.2.2.1 (by decide) 0 (Or.inl rfl)).1,
    (C7_after_supersede oneJobOps (envOk false) oneJob failedRestart
      (produce (produce failedRestart 0 [] []) 1 [] []) 0 [] [] [] []
      (by decide) (by decide) (by decide) (by decide) (by decide) (by decide)
      rfl rfl).2.2.1,
    (C7_after_supersede oneJobOps (envOk false) oneJob failedRestart
      (produce (produce failedRestart 0 [] []) 1 [] []) 0 [] [] [] []
      (by decide) (by decide) (by decide) (by decide) (by decide) (by decide)
      rfl rfl).2.2.2.2 9 ExitStatus.CrashExit⟩

end Yamaguchi
